import Mathlib

/-!
Verification of the graph editor core of `novel_learning_tools`
(`static/js/graph_core.js`, `static/js/graph_ui.js`).

The JavaScript is shallowly embedded:

* JSON-like JavaScript values (the shapes a `color` field can take) are the
  inductive `JsVal`; a possibly-`undefined` property is an `Option JsVal`.
* JavaScript strings are iterated by UTF-16 code units, so string length and
  indexing are modelled through `utf16Units`.
* `DataSet` collections of the rendering engine are modelled as Lean lists;
  a `DataSet` keys its items by id, so keyed iteration plus a batched
  `update` of per-element results is modelled as an elementwise `List.map`,
  and `remove` as a filter on the id.
* The opacity argument is only ever interpolated into template strings
  (`rgba(..., ${opacity})`), never used arithmetically, so it is modelled by
  the decimal string JavaScript would print for it ("0.2", "0.1").
* Numeric color computations (`generateColorFromString`) are modelled over
  `ℚ`; the properties proved about them (determinism, output format) do not
  depend on floating-point rounding.
-/

/-- A scalar JavaScript value inside a color object. -/
inductive JsLeaf where
  | str (s : String)
  | num (q : ℚ)
  | bool (b : Bool)
deriving DecidableEq, Repr

/-- A JSON-like JavaScript value: the shapes a `color` field takes in this
codebase. `obj` is an association list of own enumerable properties in
insertion order (JavaScript object keys are unique). Color objects here map
keys to scalar values; every modelled operation copies a non-string field
unchanged, so object fields are modelled as scalars. -/
inductive JsVal where
  | str (s : String)
  | num (q : ℚ)
  | bool (b : Bool)
  | obj (fields : List (String × JsLeaf))
deriving DecidableEq, Repr

/-- UTF-16 code units of one character (surrogate pair above U+FFFF). -/
def charUtf16 (c : Char) : List Nat :=
  if c.toNat < 65536 then [c.toNat]
  else [55296 + (c.toNat - 65536) / 1024, 56320 + (c.toNat - 65536) % 1024]

/-- The UTF-16 code units of a string: what JavaScript `length`,
`charCodeAt` and single-character indexing see. -/
def utf16Units (s : String) : List Nat :=
  s.data.foldr (fun c acc => charUtf16 c ++ acc) []

/-- `s.startsWith('#')` on a JavaScript string. -/
def startsWithHash (s : String) : Bool :=
  match utf16Units s with
  | u :: _ => u == 35
  | [] => false

/-- Decimal rendering of a natural number, digit by digit: the model of
JavaScript template interpolation of a nonnegative integer. The first
argument is fuel; `n` itself is always enough. -/
def natStrAux : Nat → Nat → List Char
  | 0, _ => []
  | fuel + 1, n => if n = 0 then [] else Nat.digitChar (n % 10) :: natStrAux fuel (n / 10)

def natStr (n : Nat) : String :=
  if n = 0 then "0" else String.mk (natStrAux n n).reverse

/-- The numeric value of one hex-digit code unit, as `Number("0x..")`
accepts them (0-9, A-F, a-f). -/
def hexDigitVal (u : Nat) : Option Nat :=
  if 48 ≤ u ∧ u ≤ 57 then some (u - 48)
  else if 65 ≤ u ∧ u ≤ 70 then some (u - 55)
  else if 97 ≤ u ∧ u ≤ 102 then some (u - 87)
  else none

/-- `+("0x" ++ two digits)`: a number, or `none` for JavaScript `NaN`. -/
def hexPair (u1 u2 : Nat) : Option Nat :=
  match hexDigitVal u1, hexDigitVal u2 with
  | some d1, some d2 => some (16 * d1 + d2)
  | _, _ => none

/-- Interpolation of a channel value; `NaN` prints as "NaN". -/
def jsNumStr : Option Nat → String
  | some n => natStr n
  | none => "NaN"

/-- The channel extraction of `hexToRGBA`: the first pattern is the
`hex.length === 4` branch (`#rgb`, each digit doubled), the second the
`hex.length === 7` branch (`#rrggbb`); any other length keeps the
`r = g = b = 0` initialisers. The first unit (the `#`) is never read. -/
def hexChannels : List Nat → Option Nat × Option Nat × Option Nat
  | [_, c1, c2, c3] => (hexPair c1 c1, hexPair c2 c2, hexPair c3 c3)
  | [_, c1, c2, c3, c4, c5, c6] => (hexPair c1 c2, hexPair c3 c4, hexPair c5 c6)
  | _ => (some 0, some 0, some 0)

/-- `hexToRGBA` of graph_core.js. -/
def hexToRGBA (hex : String) (opacity : String) : String :=
  let rgb := hexChannels (utf16Units hex)
  "rgba(" ++ jsNumStr rgb.1 ++ ", " ++ jsNumStr rgb.2.1 ++ ", " ++
    jsNumStr rgb.2.2 ++ ", " ++ opacity ++ ")"

/-- The neutral translucent gray fallback of `applyTransparencyToColor`. -/
def grayFallback (opacity : String) : String :=
  "rgba(200, 200, 200, " ++ opacity ++ ")"

/-- The `for (const key in color)` loop of `applyTransparencyToColor`:
hex-string-valued own properties get the alpha applied, all others are
copied unchanged. -/
def dimFields (fields : List (String × JsLeaf)) (opacity : String) :
    List (String × JsLeaf) :=
  fields.map fun kv =>
    match kv.2 with
    | JsLeaf.str s =>
        if startsWithHash s then (kv.1, JsLeaf.str (hexToRGBA s opacity)) else kv
    | _ => kv

/-- Property read `o.k` on an object (first and only binding of the key). -/
def jsLookup (fields : List (String × JsLeaf)) (k : String) : Option JsLeaf :=
  (fields.find? (fun kv => kv.1 == k)).map (·.2)

/-- Property write `o.k = v` on an object. -/
def setField : List (String × JsLeaf) → String → JsLeaf → List (String × JsLeaf)
  | [], k, v => [(k, v)]
  | kv :: rest, k, v => if kv.1 = k then (k, v) :: rest else kv :: setField rest k v

/-- `applyTransparencyToColor` of graph_core.js. The argument is the raw
`element.color` property (`none` = `undefined`). The branch order follows
the source: '#'-prefixed string, then `typeof color === 'object'`, then
the gray fallback (which a non-'#' string also reaches). -/
def applyTransparencyToColor (color : Option JsVal) (opacity : String) : JsVal :=
  match color with
  | some (JsVal.str s) =>
      if startsWithHash s then JsVal.str (hexToRGBA s opacity)
      else JsVal.str (grayFallback opacity)
  | some (JsVal.obj fields) =>
      let newObj := dimFields fields opacity
      match jsLookup fields "color" with
      | some (JsLeaf.str s) =>
          if startsWithHash s then
            JsVal.obj (setField newObj "color" (JsLeaf.str (hexToRGBA s opacity)))
          else JsVal.obj newObj
      | _ => JsVal.obj newObj
  | _ => JsVal.str (grayFallback opacity)

/-- JavaScript truthiness of a nullable string (`null`/`undefined` and the
empty string are falsy). -/
def jsTruthy : Option String → Bool
  | none => false
  | some s => s ≠ ""

/-- A node as held in the `nodes` DataSet. Only the fields the verified
operations touch are modelled; the remaining fields (size, position, title)
ride along unchanged in every modelled operation. `color := none` models an
absent/`undefined` color property, `origColor` the `_originalColor` shadow
property of the highlight engine. -/
structure GNode where
  id : String
  label : Option String := none
  color : Option JsVal := none
  origColor : Option JsVal := none
deriving DecidableEq, Repr

/-- An edge as held in the `edges` DataSet (`from`/`to` in the source;
`from` is a reserved word in Lean). -/
structure GEdge where
  id : String
  efrom : String
  eto : String
  label : Option String := none
  color : Option JsVal := none
  origColor : Option JsVal := none
deriving DecidableEq, Repr

/-- The mutable module state of graph_core.js that the verified operations
read and write: the two DataSet collections and `state.highlightedNode`. -/
structure GraphState where
  nodes : List GNode
  edges : List GEdge
  highlightedNode : Option String := none
deriving DecidableEq, Repr

/-- Per-element body of the `for (const id in elements)` loop of
`updateElementsOpacity`: given whether the element is highlighted or
connected, compute its new `color` and `_originalColor`.
`JSON.parse(JSON.stringify(c))` is a deep copy; on the immutable JSON
values modelled here it is the identity, so the snapshot stores the value
itself. When the element is dimmed and its color property is absent, the
source throws (`JSON.parse(undefined)`); that path is modelled as leaving
the element unchanged and is excluded by hypothesis in every theorem. -/
def updElementColor (isRelevant : Bool) (color origColor : Option JsVal)
    (opacity : String) : Option JsVal × Option JsVal :=
  if isRelevant then
    match origColor with
    | some oc => (some oc, none)
    | none => (color, none)
  else
    match origColor with
    | some oc => (some (applyTransparencyToColor color opacity), some oc)
    | none =>
      match color with
      | some c => (some (applyTransparencyToColor (some c) opacity), some c)
      | none => (color, origColor)

/-- `updateElementsOpacity` on one node: relevant iff it is the highlighted
node itself or appears in the connected-node set. -/
def updNodeHL (nodeId : String) (connNodeIds : List String) (opacity : String)
    (nd : GNode) : GNode :=
  let r := updElementColor (nd.id == nodeId || connNodeIds.contains nd.id)
    nd.color nd.origColor opacity
  { nd with color := r.1, origColor := r.2 }

/-- `updateElementsOpacity` on one edge: relevant iff incident to the
highlighted node (`isHighlighted`) or in the connected-edge id set
(`isConnected`; for unique edge ids the two conditions coincide). -/
def updEdgeHL (nodeId : String) (connEdgeIds : List String) (opacity : String)
    (e : GEdge) : GEdge :=
  let r := updElementColor
    (e.efrom == nodeId || e.eto == nodeId || connEdgeIds.contains e.id)
    e.color e.origColor opacity
  { e with color := r.1, origColor := r.2 }

/-- The connected-node id set built by `highlightNodeAndConnections`: both
endpoints of every edge incident to `nodeId`. -/
def connectedNodeIds (edges : List GEdge) (nodeId : String) : List String :=
  edges.foldr
    (fun e acc =>
      if e.efrom == nodeId || e.eto == nodeId then e.efrom :: e.eto :: acc else acc)
    []

/-- The connected-edge id set: ids of edges incident to `nodeId`. -/
def connectedEdgeIds (edges : List GEdge) (nodeId : String) : List String :=
  (edges.filter (fun e => e.efrom == nodeId || e.eto == nodeId)).map (·.id)

/-- `highlightNodeAndConnections` of graph_core.js: record the focus node,
then dim every non-relevant element (opacity 0.2 for nodes, 0.1 for edges),
restoring any element that re-enters the relevant set. -/
def highlightNodeAndConnections (nodeId : String) (g : GraphState) : GraphState :=
  let connN := connectedNodeIds g.edges nodeId
  let connE := connectedEdgeIds g.edges nodeId
  { g with
    highlightedNode := some nodeId
    nodes := g.nodes.map (updNodeHL nodeId connN "0.2")
    edges := g.edges.map (updEdgeHL nodeId connE "0.1") }

/-- The per-node body of `resetHighlight`: restore the shadowed color and
delete the `_originalColor` entry; nodes without an entry are untouched. -/
def restoreNode (nd : GNode) : GNode :=
  match nd.origColor with
  | some oc => { nd with color := some oc, origColor := none }
  | none => nd

/-- The per-edge body of `resetHighlight`. -/
def restoreEdge (e : GEdge) : GEdge :=
  match e.origColor with
  | some oc => { e with color := some oc, origColor := none }
  | none => e

/-- `resetHighlight` of graph_core.js: a no-op unless `state.highlightedNode`
is truthy; otherwise restore every element that has an `_originalColor`
shadow entry and delete the entry. -/
def resetHighlight (g : GraphState) : GraphState :=
  if jsTruthy g.highlightedNode then
    { g with
      highlightedNode := none
      nodes := g.nodes.map restoreNode
      edges := g.edges.map restoreEdge }
  else g

/-- Every element's color property is present (a defined JSON value): the
states on which the highlight engine does not hit the
`JSON.parse(JSON.stringify(undefined))` exception path. -/
def colorsDefined (g : GraphState) : Prop :=
  (∀ nd ∈ g.nodes, nd.color.isSome) ∧ (∀ e ∈ g.edges, e.color.isSome)

instance (g : GraphState) : Decidable (colorsDefined g) := by
  unfold colorsDefined; infer_instance

/-- No element is currently dimmed: the `_originalColor` shadow map is
empty. -/
def shadowEmpty (g : GraphState) : Prop :=
  (∀ nd ∈ g.nodes, nd.origColor = none) ∧ (∀ e ∈ g.edges, e.origColor = none)

instance (g : GraphState) : Decidable (shadowEmpty g) := by
  unfold shadowEmpty; infer_instance

/-- The interaction-layer state of graph_ui.js (`GraphUI._state`); the two
menu timers are not modelled, `isMenuVisible` summarizes the DOM menu
visibility the flag tracks. -/
structure UIState where
  contextMenuNode : Option String := none
  contextMenuEdge : Option String := none
  addingNode : Bool := false
  connectingToExisting : Bool := false
  connectionSourceNode : Option String := none
  isConnectingNewNode : Bool := false
  isMenuVisible : Bool := false
deriving DecidableEq, Repr

/-- `cancelMode` of graph_ui.js (which also hides all context menus). -/
def cancelMode (ui : UIState) : UIState :=
  { ui with
    addingNode := false
    connectingToExisting := false
    connectionSourceNode := none
    isMenuVisible := false }

/-- The highlight-toggling block at the top of `GraphUI.handleClick`: a hit
node toggles (reset when it is already the focus, focus otherwise); a hit
on blank canvas with an active truthy focus resets. -/
def highlightClickStep (hitNodes hitEdges : List String) (g : GraphState) :
    GraphState :=
  match hitNodes with
  | clicked :: _ =>
      if g.highlightedNode = some clicked then resetHighlight g
      else highlightNodeAndConnections clicked g
  | [] =>
      if hitEdges.isEmpty && jsTruthy g.highlightedNode then resetHighlight g
      else g

/-- The connect-to-existing-node block at the bottom of
`GraphUI.handleClick`: in connect mode with a truthy source, a click on a
different node adds a fresh edge `source → target` (id synthesized from
the endpoints and `Date.now()`), and the mode is cancelled either way. -/
def connectClickStep (hitNodes : List String) (now : String) (ui : UIState)
    (g : GraphState) : UIState × GraphState :=
  if ui.connectingToExisting && !hitNodes.isEmpty && jsTruthy ui.connectionSourceNode then
    match hitNodes, ui.connectionSourceNode with
    | target :: _, some src =>
        let g :=
          if target ≠ src then
            { g with
              edges := g.edges ++
                [{ id := "edge_" ++ src ++ "_" ++ target ++ "_" ++ now,
                   efrom := src, eto := target }] }
          else g
        (cancelMode ui, g)
    | _, _ => (ui, g)
  else (ui, g)

/-- `GraphUI.handleClick`. `hitNodes`/`hitEdges` are `params.nodes` and
`params.edges` from the rendering engine; `now` is the `Date.now()`
timestamp interpolated into a freshly synthesized edge id. Between the two
blocks, a click on blank canvas dismisses a visible context menu. -/
def handleClick (hitNodes hitEdges : List String) (now : String)
    (ui : UIState) (g : GraphState) : UIState × GraphState :=
  let g := highlightClickStep hitNodes hitEdges g
  let ui :=
    if ui.isMenuVisible && hitNodes.isEmpty && hitEdges.isEmpty then
      { ui with isMenuVisible := false }
    else ui
  connectClickStep hitNodes now ui g

/-- `network.getConnectedEdges(nodeId)` of the rendering engine (consumed
collaborator): the ids of the edges incident to the node. -/
def getConnectedEdges (edges : List GEdge) (nodeId : String) : List String :=
  (edges.filter (fun e => e.efrom == nodeId || e.eto == nodeId)).map (·.id)

/-- `GraphUI.deleteSelectedNode`: remove the connected edges, then the node,
then hide the menus. Guarded by truthiness of `_state.contextMenuNode`. -/
def deleteSelectedNode (ui : UIState) (g : GraphState) : UIState × GraphState :=
  if jsTruthy ui.contextMenuNode then
    match ui.contextMenuNode with
    | some nid =>
        let connected := getConnectedEdges g.edges nid
        let g := { g with edges := g.edges.filter (fun e => !connected.contains e.id) }
        let g := { g with nodes := g.nodes.filter (fun nd => nd.id ≠ nid) }
        ({ ui with isMenuVisible := false }, g)
    | none => (ui, g)
  else (ui, g)

/-- `edges.get(id)` on a DataSet: the item with that id (`none` = `null`). -/
def dataSetGetEdge (edges : List GEdge) (eid : String) : Option GEdge :=
  edges.find? (fun e => e.id == eid)

/-- `GraphUI.reverseEdgeDirection`: read the edge, remove it, add a fresh
record `{id, from: old to, to: old from, label}` (any other fields of the
old edge are not carried over), hide the menus. When `edges.get` returns
`null` the source would throw on `edge.to`; that path is modelled as a
no-op and excluded by hypothesis. -/
def reverseEdgeDirection (ui : UIState) (g : GraphState) : UIState × GraphState :=
  if jsTruthy ui.contextMenuEdge then
    match ui.contextMenuEdge with
    | some eid =>
        match dataSetGetEdge g.edges eid with
        | some e =>
            let g := { g with edges := g.edges.filter (fun x => x.id ≠ eid) }
            let g := { g with edges := g.edges ++
              [{ id := eid, efrom := e.eto, eto := e.efrom, label := e.label }] }
            ({ ui with isMenuVisible := false }, g)
        | none => (ui, g)
    | none => (ui, g)
  else (ui, g)

/-- A node in the persisted document form (`convertVisToOriginalFormat`);
fields not modelled on `GNode` (size, x, y, title) are projected verbatim
by the source and omitted here. -/
structure DocNode where
  id : String
  label : Option String
  color : Option JsVal
deriving DecidableEq, Repr

/-- An edge in the persisted document form. -/
structure DocEdge where
  id : String
  efrom : String
  eto : String
  label : Option String
  color : Option JsVal
deriving DecidableEq, Repr

/-- `convertVisToOriginalFormat` of graph_core.js: a field projection of
the live collections into the wire form. -/
def convertVisToOriginalFormat (nodes : List GNode) (edges : List GEdge) :
    List DocNode × List DocEdge :=
  (nodes.map fun nd => { id := nd.id, label := nd.label, color := nd.color },
   edges.map fun e =>
     { id := e.id, efrom := e.efrom, eto := e.eto, label := e.label, color := e.color })

/-- An observable side effect of `saveGraph`: a user-visible alert, or an
HTTP `PUT /api/graph/<key>` request carrying the serialized document (the
request is identified by its cache key and body). -/
inductive Effect where
  | alert (msg : String)
  | fetchPut (cacheKey : String) (body : List DocNode × List DocEdge)
deriving DecidableEq, Repr

/-- `saveGraph` of graph_core.js, up to the point where control leaves the
page (the network request itself is an external collaborator): with a falsy
`currentCacheKey` it alerts and returns; otherwise it serializes the
collections and issues the PUT. In neither case does it mutate the
collections. -/
def saveGraph (currentCacheKey : Option String) (g : GraphState) :
    List Effect × GraphState :=
  if jsTruthy currentCacheKey then
    match currentCacheKey with
    | some key =>
        ([Effect.fetchPut key (convertVisToOriginalFormat g.nodes g.edges)], g)
    | none => ([], g)
  else ([Effect.alert "未加载图谱，无法保存"], g)

/-- The `while (idSet.has(candidate))` loop of `ensureUniqueIds`: starting
from counter value `k`, return the first counter whose candidate
`base_<counter>` is not yet taken. The fuel argument only bounds the loop
for totality; `seen.length + 1` steps provably reach a free candidate. -/
def findCounter (seen : List String) (base : String) : Nat → Nat → Nat
  | k, 0 => k
  | k, fuel + 1 =>
      if seen.contains (base ++ "_" ++ natStr k) then findCounter seen base (k + 1) fuel
      else k

/-- One id assignment of `ensureUniqueIds`: keep `base` if free, otherwise
append `_<counter>` for the first free counter starting at 1. -/
def assignId (seen : List String) (base : String) : String :=
  if seen.contains base then
    base ++ "_" ++ natStr (findCounter seen base 1 (seen.length + 1))
  else base

/-- The node pass of `ensureUniqueIds`: one forward walk, threading the set
of already-assigned ids and emitting `{...node, id}` copies. -/
def ensureUniqueIdsNodes : List GNode → List String → List GNode
  | [], _ => []
  | nd :: rest, seen =>
      let nid := assignId seen nd.id
      { nd with id := nid } :: ensureUniqueIdsNodes rest (nid :: seen)

/-- The assigned-id set after the node pass, for stating that later input
never rewrites earlier output. -/
def seenAfterNodes : List GNode → List String → List String
  | [], seen => seen
  | nd :: rest, seen => seenAfterNodes rest (assignId seen nd.id :: seen)

/-- An edge as `ensureUniqueIds` receives it: its id may be absent
(`edge.id || ...` also treats the empty string as absent). Only the fields
the pass reads are modelled; the rest is spread-copied. -/
structure RawEdge where
  id : Option String := none
  efrom : String
  eto : String
deriving DecidableEq, Repr

/-- `edge.id || `edge_${edge.from}_${edge.to}``: the base id an edge enters
de-duplication with. -/
def edgeBase (e : RawEdge) : String :=
  match e.id with
  | some s => if s = "" then "edge_" ++ e.efrom ++ "_" ++ e.eto else s
  | none => "edge_" ++ e.efrom ++ "_" ++ e.eto

/-- The edge pass of `ensureUniqueIds`. -/
def ensureUniqueIdsEdges : List RawEdge → List String → List RawEdge
  | [], _ => []
  | e :: rest, seen =>
      let eid := assignId seen (edgeBase e)
      { e with id := some eid } :: ensureUniqueIdsEdges rest (eid :: seen)

/-- The assigned-id set after the edge pass. -/
def seenAfterEdges : List RawEdge → List String → List String
  | [], seen => seen
  | e :: rest, seen => seenAfterEdges rest (assignId seen (edgeBase e) :: seen)

/-- `ensureUniqueIds` of graph_core.js: both passes, each starting from an
empty id set. -/
def ensureUniqueIds (nodes : List GNode) (edges : List RawEdge) :
    List GNode × List RawEdge :=
  (ensureUniqueIdsNodes nodes [], ensureUniqueIdsEdges edges [])

/-- `ToInt32`: wrap an integer into the signed 32-bit range, as the
JavaScript operators `<<` and `&` do to their operands and result. -/
def toInt32 (z : ℤ) : ℤ :=
  (z + 2 ^ 31) % 2 ^ 32 - 2 ^ 31

/-- `simpleHash` of graph_core.js: `hash = ((hash << 5) - hash) + charCode`
over the UTF-16 code units, coerced back to int32 by `hash & hash` each
step, then `Math.abs`. The intermediate `(hash << 5) - hash + char` stays
far below 2^53, so plain integer arithmetic models it exactly. -/
def simpleHash (text : String) : Nat :=
  ((utf16Units text).foldl
    (fun hash c => toInt32 (toInt32 (hash * 32) - hash + (c : ℤ))) 0).natAbs

/-- `Math.round`: round half toward +infinity. -/
def jsRound (x : ℚ) : ℤ := ⌊x + 1 / 2⌋

/-- Lowercase hexadecimal digits of a natural number, little-endian, with
fuel (`n` itself is always enough): the model of `n.toString(16)`. -/
def natHexAux : Nat → Nat → List Char
  | 0, _ => []
  | fuel + 1, n =>
      if n = 0 then [] else Nat.digitChar (n % 16) :: natHexAux fuel (n / 16)

def natHexStr (n : Nat) : String :=
  if n = 0 then "0" else String.mk (natHexAux n n).reverse

/-- `z.toString(16)` for an integer. -/
def jsIntToHexStr (z : ℤ) : String :=
  if z < 0 then "-" ++ natHexStr z.natAbs else natHexStr z.toNat

/-- `.padStart(2, '0')`. -/
def padStart2 (s : String) : String :=
  if s.length = 0 then "00" else if s.length = 1 then "0" ++ s else s

/-- One output channel of `generateColorFromString`:
`Math.round(x * 255).toString(16).padStart(2, '0')`. -/
def channelHex (x : ℚ) : String :=
  padStart2 (jsIntToHexStr (jsRound (x * 255)))

/-- The inner `hue2rgb` arrow function of `generateColorFromString`. -/
def hue2rgb (p q t : ℚ) : ℚ :=
  let t := if t < 0 then t + 1 else t
  let t := if t > 1 then t - 1 else t
  if t < 1 / 6 then p + (q - p) * 6 * t
  else if t < 1 / 2 then q
  else if t < 2 / 3 then p + (q - p) * (2 / 3 - t) * 6
  else p

/-- `hashValue >> 16 & 0xFF`, `>> 8`, `& 0xFF` of `generateColorFromString`:
the absolute hash is at most 2^31, for which the signed shift-and-mask
agrees with these unsigned formulas. -/
def rgbOfHash (hv : ℕ) : ℕ × ℕ × ℕ :=
  (hv / 65536 % 256, hv / 256 % 256, hv % 256)

/-- The pre-remap `(h, s)` pair of the RGB→HSL block of
`generateColorFromString`, with the source's locals written out:
`mx`/`mn` are `max rf (max gf bf)` / `min rf (min gf bf)`, `d = mx - mn`,
and `l = (mx + mn) / 2` selects the saturation formula. In the
`max === min` branch the source sets `h = s = 0` and the later `h /= 6`
keeps `h = 0`, as here. -/
def hslHS (rf gf bf : ℚ) : ℚ × ℚ :=
  if max rf (max gf bf) = min rf (min gf bf) then (0, 0)
  else
    ((if max rf (max gf bf) = rf then
        (gf - bf) / (max rf (max gf bf) - min rf (min gf bf)) +
          (if gf < bf then 6 else 0)
      else if max rf (max gf bf) = gf then
        (bf - rf) / (max rf (max gf bf) - min rf (min gf bf)) + 2
      else (rf - gf) / (max rf (max gf bf) - min rf (min gf bf)) + 4) / 6,
     if (max rf (max gf bf) + min rf (min gf bf)) / 2 > 1 / 2 then
       (max rf (max gf bf) - min rf (min gf bf)) /
         (2 - max rf (max gf bf) - min rf (min gf bf))
     else
       (max rf (max gf bf) - min rf (min gf bf)) /
         (max rf (max gf bf) + min rf (min gf bf)))

/-- The RGB→HSL block of `generateColorFromString`, the saturation/lightness
remap included: the result is `(h, 0.6 + s*0.4, 0.4 + l*0.4)`. -/
def hslOf (rf gf bf : ℚ) : ℚ × ℚ × ℚ :=
  ((hslHS rf gf bf).1, 0.6 + (hslHS rf gf bf).2 * 0.4,
    0.4 + ((max rf (max gf bf) + min rf (min gf bf)) / 2) * 0.4)

/-- The local `q` of the HSL→RGB block (`p` is `2 * l - q`). -/
def qOf (s l : ℚ) : ℚ :=
  if l < 0.5 then l * (1 + s) else l + s - l * s

/-- The HSL→RGB block of `generateColorFromString`. The `s === 0` branch is
kept although the remapped `s` is never 0. -/
def rgb1Of (h s l : ℚ) : ℚ × ℚ × ℚ :=
  if s = 0 then (l, l, l)
  else
    (hue2rgb (2 * l - qOf s l) (qOf s l) (h + 1 / 3),
     hue2rgb (2 * l - qOf s l) (qOf s l) h,
     hue2rgb (2 * l - qOf s l) (qOf s l) (h - 1 / 3))

/-- The cache-miss body of `generateColorFromString`, over exact rationals:
hash the string, split the low 24 bits of the absolute hash into RGB,
convert to HSL (remapping saturation into [0.6, 1] and lightness into
[0.4, 0.8]), convert back, and print `#rrggbb`. -/
def computeColorHex (text : String) : String :=
  let hv := simpleHash text
  let rgb := rgbOfHash hv
  let hsl := hslOf ((rgb.1 : ℚ) / 255) ((rgb.2.1 : ℚ) / 255) ((rgb.2.2 : ℚ) / 255)
  let c := rgb1Of hsl.1 hsl.2.1 hsl.2.2
  "#" ++ channelHex c.1 ++ channelHex c.2.1 ++ channelHex c.2.2

/-- The property names a plain object literal `{}` inherits from
`Object.prototype`. A read of any of these on `_colorCache` finds the
inherited member — a function, or `Object.prototype` itself for
`__proto__` — which is truthy and not a string. -/
def objectPrototypeMembers : List String :=
  ["constructor", "hasOwnProperty", "isPrototypeOf", "propertyIsEnumerable",
   "toLocaleString", "toString", "valueOf", "__defineGetter__",
   "__defineSetter__", "__lookupGetter__", "__lookupSetter__", "__proto__"]

/-- A value read off the `_colorCache` plain object: an own entry (always
a stored color string) or a member inherited from `Object.prototype`. -/
inductive JsPropVal where
  | str (s : String)
  | builtin (name : String)
deriving DecidableEq, Repr

/-- JavaScript truthiness of a read property value: the empty string is
falsy; the inherited members are functions/objects, always truthy. -/
def JsPropVal.truthy : JsPropVal → Bool
  | JsPropVal.str s => s ≠ ""
  | JsPropVal.builtin _ => true

/-- `_colorCache[text]`: own entries are consulted first, then the
prototype chain of the plain object (`none` = `undefined`). -/
def cacheRead (cache : List (String × String)) (text : String) :
    Option JsPropVal :=
  match (cache.find? (fun kv => kv.1 == text)).map (·.2) with
  | some c => some (JsPropVal.str c)
  | none =>
      if objectPrototypeMembers.contains text then some (JsPropVal.builtin text)
      else none

/-- `generateColorFromString` with its `_colorCache` passed explicitly: a
truthy read of `_colorCache[text]` — including a hit on an inherited
`Object.prototype` member — is returned as the color; otherwise compute,
store and return. -/
def generateColorFromString (cache : List (String × String)) (text : String) :
    JsPropVal × List (String × String) :=
  match cacheRead cache text with
  | some v =>
      if v.truthy then (v, cache)
      else
        let colorHex := computeColorHex text
        (JsPropVal.str colorHex, (text, colorHex) :: cache)
  | none =>
      let colorHex := computeColorHex text
      (JsPropVal.str colorHex, (text, colorHex) :: cache)

/-- Hex digit in the character set `toString(16)` emits plus uppercase. -/
def isHexDigitChar (c : Char) : Bool :=
  (48 ≤ c.toNat && c.toNat ≤ 57) || (97 ≤ c.toNat && c.toNat ≤ 102) ||
    (65 ≤ c.toNat && c.toNat ≤ 70)

/-- A 6-digit `#rrggbb` color string. -/
def isValidHexColor (s : String) : Bool :=
  match s.data with
  | '#' :: rest => rest.length == 6 && rest.all isHexDigitChar
  | _ => false

/-- Every `_colorCache` binding stores exactly the computed color of its
key: the invariant every reachable cache satisfies. -/
def CacheInv (cache : List (String × String)) : Prop :=
  ∀ kv ∈ cache, kv.2 = computeColorHex kv.1

instance (cache : List (String × String)) : Decidable (CacheInv cache) := by
  unfold CacheInv; infer_instance

/-! ### Concrete scenario states -/

/-- A one-node graph with a plain hex color and no active highlight. -/
def gA : GraphState :=
  { nodes := [{ id := "a", color := some (JsVal.str "#336699") }], edges := [] }

/-- The worked example of the specification: nodes 1, 2, 3 and edges
1→2, 2→3, fully colored, un-highlighted. -/
def g123 : GraphState :=
  { nodes :=
      [{ id := "1", label := some "one", color := some (JsVal.str "#ff0000") },
       { id := "2", label := some "two", color := some (JsVal.str "#00ff00") },
       { id := "3", label := some "three", color := some (JsVal.str "#0000ff") }],
    edges :=
      [{ id := "e12", efrom := "1", eto := "2", label := some "to",
         color := some (JsVal.obj [("color", JsLeaf.str "#336699")]) },
       { id := "e23", efrom := "2", eto := "3", label := some "to",
         color := some (JsVal.str "#abcdef") }] }

/-- `g123` after focusing node 1: a state with an active highlight and a
non-empty shadow map. -/
def gB : GraphState := highlightNodeAndConnections "1" g123

/-- The expected result of focusing node 1 of `g123`: nodes 1, 2 and edge
1→2 untouched, node 3 dimmed at opacity 0.2 and edge 2→3 dimmed at opacity
0.1, both with their original colors shadowed. -/
def g123focus1 : GraphState :=
  { nodes :=
      [{ id := "1", label := some "one", color := some (JsVal.str "#ff0000") },
       { id := "2", label := some "two", color := some (JsVal.str "#00ff00") },
       { id := "3", label := some "three",
         color := some (JsVal.str "rgba(0, 0, 255, 0.2)"),
         origColor := some (JsVal.str "#0000ff") }],
    edges :=
      [{ id := "e12", efrom := "1", eto := "2", label := some "to",
         color := some (JsVal.obj [("color", JsLeaf.str "#336699")]) },
       { id := "e23", efrom := "2", eto := "3", label := some "to",
         color := some (JsVal.str "rgba(171, 205, 239, 0.1)"),
         origColor := some (JsVal.str "#abcdef") }],
    highlightedNode := some "1" }

/-! ### Helper lemmas -/

theorem jsTruthy_some {s : String} (h : s ≠ "") : jsTruthy (some s) = true := by
  simp [jsTruthy, h]

theorem restoreNode_origColor (nd : GNode) : (restoreNode nd).origColor = none := by
  cases h : nd.origColor <;> simp [restoreNode, h]

theorem restoreEdge_origColor (e : GEdge) : (restoreEdge e).origColor = none := by
  cases h : e.origColor <;> simp [restoreEdge, h]

theorem hexChannels_default (u : List Nat) (h4 : u.length ≠ 4) (h7 : u.length ≠ 7) :
    hexChannels u = (some 0, some 0, some 0) :=
  match u, h4, h7 with
  | [], _, _ => rfl
  | [_], _, _ => rfl
  | [_, _], _, _ => rfl
  | [_, _, _], _, _ => rfl
  | [_, _, _, _], h4, _ => absurd rfl h4
  | [_, _, _, _, _], _, _ => rfl
  | [_, _, _, _, _, _], _, _ => rfl
  | [_, _, _, _, _, _, _], _, h7 => absurd rfl h7
  | _ :: _ :: _ :: _ :: _ :: _ :: _ :: _ :: _, _, _ => rfl

theorem hexToRGBA_default (hex o : String)
    (h4 : (utf16Units hex).length ≠ 4) (h7 : (utf16Units hex).length ≠ 7) :
    hexToRGBA hex o = "rgba(0, 0, 0, " ++ o ++ ")" := by
  unfold hexToRGBA
  rw [hexChannels_default _ h4 h7]
  rfl

theorem contains_getConnectedEdges (l : List GEdge) (nid : String)
    (hn : (l.map GEdge.id).Nodup) (e : GEdge) (he : e ∈ l) :
    (getConnectedEdges l nid).contains e.id = (e.efrom == nid || e.eto == nid) := by
  by_cases hinc : (e.efrom == nid || e.eto == nid) = true
  · rw [hinc]
    exact List.elem_iff.mpr
      (List.mem_map_of_mem GEdge.id (List.mem_filter_of_mem he hinc))
  · have hfalse : (e.efrom == nid || e.eto == nid) = false := by
      cases h' : (e.efrom == nid || e.eto == nid)
      · rfl
      · exact absurd h' hinc
    rw [hfalse]
    by_contra hc
    rw [Bool.not_eq_false] at hc
    have hmem : e.id ∈ getConnectedEdges l nid := List.elem_iff.mp hc
    obtain ⟨x, hxf, hxid⟩ := List.mem_map.mp hmem
    have hx := List.mem_filter.mp hxf
    have hxe : x = e := List.inj_on_of_nodup_map hn hx.1 he hxid
    rw [hxe] at hx
    exact hinc hx.2

/-! ### Claim C8 -/

/-- Claim C8: with no active persistence key (`currentCacheKey` null),
`saveGraph` raises only the user-visible alert — no network request is
issued and the in-memory collections are returned unchanged. -/
theorem C8_save_without_key (g : GraphState) :
    saveGraph none g = ([Effect.alert "未加载图谱，无法保存"], g) := rfl

/-! ### Claim C10 -/

/-- Claim C10: for any '#'-prefixed string whose UTF-16 length is neither 4
nor 7, and any opacity, `applyTransparencyToColor` takes the hex branch (on
the '#' prefix alone) and the unparsed channels default to 0, yielding
`rgba(0, 0, 0, o)` rather than the neutral-gray unrecognized-shape
fallback. -/
theorem C10_hex_branch_odd_length (s o : String) (h1 : startsWithHash s = true)
    (h4 : (utf16Units s).length ≠ 4) (h7 : (utf16Units s).length ≠ 7) :
    applyTransparencyToColor (some (JsVal.str s)) o =
      JsVal.str ("rgba(0, 0, 0, " ++ o ++ ")") := by
  simp only [applyTransparencyToColor, h1, if_true]
  rw [hexToRGBA_default s o h4 h7]

theorem C10_witness :
    (startsWithHash "#12345" = true ∧ (utf16Units "#12345").length ≠ 4 ∧
      (utf16Units "#12345").length ≠ 7) ∧
    applyTransparencyToColor (some (JsVal.str "#12345")) "0.5" =
      JsVal.str ("rgba(0, 0, 0, " ++ "0.5" ++ ")") :=
  ⟨⟨by decide, by decide, by decide⟩,
    C10_hex_branch_odd_length "#12345" "0.5" (by decide) (by decide) (by decide)⟩

/-! ### Claim C6 -/

/-- Claim C6: `applyTransparencyToColor "#336699" 0.2` is exactly
`rgba(51, 102, 153, 0.2)`; short-form `#rgb` and long-form `#rrggbb` hex
strings are both accepted, converting each channel and applying the
requested alpha; and a color value that is neither a '#'-prefixed string
nor an object yields the fixed neutral translucent gray instead of
throwing. -/
theorem C6_apply_transparency :
    applyTransparencyToColor (some (JsVal.str "#336699")) "0.2" =
      JsVal.str "rgba(51, 102, 153, 0.2)" ∧
    (∀ s o u1 u2 u3 u4 u5 u6, utf16Units s = [35, u1, u2, u3, u4, u5, u6] →
      applyTransparencyToColor (some (JsVal.str s)) o =
        JsVal.str ("rgba(" ++ jsNumStr (hexPair u1 u2) ++ ", " ++
          jsNumStr (hexPair u3 u4) ++ ", " ++ jsNumStr (hexPair u5 u6) ++
          ", " ++ o ++ ")")) ∧
    (∀ s o u1 u2 u3, utf16Units s = [35, u1, u2, u3] →
      applyTransparencyToColor (some (JsVal.str s)) o =
        JsVal.str ("rgba(" ++ jsNumStr (hexPair u1 u1) ++ ", " ++
          jsNumStr (hexPair u2 u2) ++ ", " ++ jsNumStr (hexPair u3 u3) ++
          ", " ++ o ++ ")")) ∧
    (∀ o q, applyTransparencyToColor (some (JsVal.num q)) o =
      JsVal.str (grayFallback o)) ∧
    (∀ o b, applyTransparencyToColor (some (JsVal.bool b)) o =
      JsVal.str (grayFallback o)) ∧
    (∀ o, applyTransparencyToColor none o = JsVal.str (grayFallback o)) := by
  refine ⟨by decide, ?_, ?_, fun o q => rfl, fun o b => rfl, fun o => rfl⟩
  · intro s o u1 u2 u3 u4 u5 u6 h
    have hh : startsWithHash s = true := by simp [startsWithHash, h]
    simp only [applyTransparencyToColor, hh, if_true]
    unfold hexToRGBA
    rw [h]
    rfl
  · intro s o u1 u2 u3 h
    have hh : startsWithHash s = true := by simp [startsWithHash, h]
    simp only [applyTransparencyToColor, hh, if_true]
    unfold hexToRGBA
    rw [h]
    rfl

theorem C6_witness :
    utf16Units "#abc" = [35, 97, 98, 99] ∧
    applyTransparencyToColor (some (JsVal.str "#abc")) "0.3" =
      JsVal.str ("rgba(" ++ jsNumStr (hexPair 97 97) ++ ", " ++
        jsNumStr (hexPair 98 98) ++ ", " ++ jsNumStr (hexPair 99 99) ++
        ", " ++ "0.3" ++ ")") :=
  ⟨by decide, C6_apply_transparency.2.2.1 "#abc" "0.3" 97 98 99 (by decide)⟩

/-! ### Claim C1 -/

theorem focus_reset_node (nodeId : String) (conn : List String) (op : String)
    (i : String) (lb : Option String) (c : JsVal) :
    restoreNode (updNodeHL nodeId conn op
        { id := i, label := lb, color := some c, origColor := none }) =
      { id := i, label := lb, color := some c, origColor := none } := by
  by_cases hrel : i = nodeId ∨ i ∈ conn <;>
    simp [updNodeHL, updElementColor, restoreNode, hrel]

theorem focus_reset_edge (nodeId : String) (conn : List String) (op : String)
    (i f t : String) (lb : Option String) (c : JsVal) :
    restoreEdge (updEdgeHL nodeId conn op
        { id := i, efrom := f, eto := t, label := lb, color := some c,
          origColor := none }) =
      { id := i, efrom := f, eto := t, label := lb, color := some c,
        origColor := none } := by
  by_cases hrel : (f = nodeId ∨ t = nodeId) ∨ i ∈ conn <;>
    simp [updEdgeHL, updElementColor, restoreEdge, hrel]

/-- Claim C1 (amended): from a state with an empty shadow map and defined
colors, focusing any JavaScript-truthy (non-empty) node id and resetting
immediately restores every node's and edge's color exactly and leaves the
shadow map empty. -/
theorem C1_focus_reset (g : GraphState) (n : String) (hn : n ≠ "")
    (hdef : colorsDefined g) (hsh : shadowEmpty g) :
    resetHighlight (highlightNodeAndConnections n g) =
      { g with highlightedNode := none } ∧
    shadowEmpty (resetHighlight (highlightNodeAndConnections n g)) := by
  obtain ⟨hdefN, hdefE⟩ := hdef
  obtain ⟨hshN, hshE⟩ := hsh
  have hnodes :
      (g.nodes.map (updNodeHL n (connectedNodeIds g.edges n) "0.2")).map restoreNode =
        g.nodes := by
    rw [List.map_map]
    have hel : ∀ nd ∈ g.nodes,
        restoreNode (updNodeHL n (connectedNodeIds g.edges n) "0.2" nd) = nd := by
      intro nd hnd
      obtain ⟨i, lb, c0, oc0⟩ := nd
      obtain ⟨c, hc⟩ := Option.isSome_iff_exists.mp (hdefN _ hnd)
      have hc' : c0 = some c := hc
      have ho' : oc0 = none := hshN _ hnd
      subst hc' ho'
      exact focus_reset_node n _ "0.2" i lb c
    rw [show g.nodes.map
          (restoreNode ∘ updNodeHL n (connectedNodeIds g.edges n) "0.2") =
        g.nodes.map id from List.map_congr_left fun a ha => hel a ha]
    exact List.map_id g.nodes
  have hedges :
      (g.edges.map (updEdgeHL n (connectedEdgeIds g.edges n) "0.1")).map restoreEdge =
        g.edges := by
    rw [List.map_map]
    have hel : ∀ e ∈ g.edges,
        restoreEdge (updEdgeHL n (connectedEdgeIds g.edges n) "0.1" e) = e := by
      intro e he
      obtain ⟨i, f, t, lb, c0, oc0⟩ := e
      obtain ⟨c, hc⟩ := Option.isSome_iff_exists.mp (hdefE _ he)
      have hc' : c0 = some c := hc
      have ho' : oc0 = none := hshE _ he
      subst hc' ho'
      exact focus_reset_edge n _ "0.1" i f t lb c
    rw [show g.edges.map
          (restoreEdge ∘ updEdgeHL n (connectedEdgeIds g.edges n) "0.1") =
        g.edges.map id from List.map_congr_left fun a ha => hel a ha]
    exact List.map_id g.edges
  have hmain : resetHighlight (highlightNodeAndConnections n g) =
      { g with highlightedNode := none } := by
    show resetHighlight
        { nodes := g.nodes.map (updNodeHL n (connectedNodeIds g.edges n) "0.2"),
          edges := g.edges.map (updEdgeHL n (connectedEdgeIds g.edges n) "0.1"),
          highlightedNode := some n } = _
    simp only [resetHighlight, jsTruthy_some hn, if_true]
    simp only [GraphState.mk.injEq]
    exact ⟨hnodes, hedges, trivial⟩
  refine ⟨hmain, ?_⟩
  rw [hmain]
  exact ⟨hshN, hshE⟩

theorem C1_witness :
    ("1" ≠ "" ∧ colorsDefined g123 ∧ shadowEmpty g123) ∧
    resetHighlight (highlightNodeAndConnections "1" g123) =
      { g123 with highlightedNode := none } :=
  ⟨⟨by decide, by decide, by decide⟩,
    (C1_focus_reset g123 "1" (by decide) (by decide) (by decide)).1⟩

/-- Claim C1, as stated, is false: (a) focusing the falsy empty-string id
from a clean one-node state dims the node but the following reset is an
early-return no-op, so the color is not restored and the shadow map stays
non-empty; (b) from a state that is already highlighted (`gB`, i.e. `g123`
after focusing node 1), focus-then-reset yields the semantic colors, not
the pre-focus (dimmed) color values. -/
theorem C1_counterexample :
    (resetHighlight (highlightNodeAndConnections "" gA)).nodes.map GNode.color ≠
      gA.nodes.map GNode.color ∧
    (resetHighlight (highlightNodeAndConnections "" gA)).nodes.map GNode.origColor ≠
      gA.nodes.map GNode.origColor ∧
    (resetHighlight (highlightNodeAndConnections "2" gB)).nodes.map GNode.color ≠
      gB.nodes.map GNode.color := by decide

/-! ### Claim C2 -/

/-- Claim C2: on the 1→2, 2→3 example graph, focusing node 2 keeps every
node and both edges at full opacity (only the focus marker changes), while
focusing node 1 keeps nodes 1, 2 and edge 1→2 and dims node 3 (target
opacity 0.2) and edge 2→3 (target opacity 0.1); in general, on a clean
state with unique edge ids an edge is left untouched by a focus exactly
when it is incident to the focused node, and every other edge is dimmed at
opacity 0.1 with its original color shadowed. -/
theorem C2_focus_relevance :
    highlightNodeAndConnections "2" g123 = { g123 with highlightedNode := some "2" } ∧
    highlightNodeAndConnections "1" g123 = g123focus1 ∧
    (∀ (g : GraphState) (n : String), colorsDefined g → shadowEmpty g →
      (g.edges.map GEdge.id).Nodup →
      (highlightNodeAndConnections n g).edges =
        g.edges.map fun e =>
          if e.efrom = n ∨ e.eto = n then e
          else { e with color := some (applyTransparencyToColor e.color "0.1"),
                        origColor := e.color }) := by
  refine ⟨by decide, by decide, ?_⟩
  intro g n hdef hsh hn
  show g.edges.map (updEdgeHL n (connectedEdgeIds g.edges n) "0.1") = _
  apply List.map_congr_left
  intro e he
  have hcontains : (connectedEdgeIds g.edges n).contains e.id =
      (e.efrom == n || e.eto == n) :=
    contains_getConnectedEdges g.edges n hn e he
  obtain ⟨c, hc⟩ := Option.isSome_iff_exists.mp (hdef.2 e he)
  have ho := hsh.2 e he
  by_cases hinc : e.efrom = n ∨ e.eto = n
  · rw [if_pos hinc]
    obtain ⟨i, f, t, lb, c0, oc0⟩ := e
    have hc' : c0 = some c := hc
    have ho' : oc0 = none := ho
    subst hc' ho'
    simp [updEdgeHL, updElementColor, hinc]
  · rw [if_neg hinc]
    have h12 := not_or.mp hinc
    have hmem : e.id ∉ connectedEdgeIds g.edges n := by
      intro hm
      have : (connectedEdgeIds g.edges n).contains e.id = true := List.elem_iff.mpr hm
      rw [hcontains] at this
      rcases Bool.or_eq_true_iff.mp this with h | h
      · exact h12.1 (by simpa using h)
      · exact h12.2 (by simpa using h)
    obtain ⟨i, f, t, lb, c0, oc0⟩ := e
    have hc' : c0 = some c := hc
    have ho' : oc0 = none := ho
    subst hc' ho'
    simp [updEdgeHL, updElementColor, h12.1, h12.2, hmem]

theorem C2_witness :
    (colorsDefined g123 ∧ shadowEmpty g123 ∧ (g123.edges.map GEdge.id).Nodup) ∧
    (highlightNodeAndConnections "1" g123).edges =
      g123.edges.map (fun e =>
        if e.efrom = "1" ∨ e.eto = "1" then e
        else { e with color := some (applyTransparencyToColor e.color "0.1"),
                      origColor := e.color }) :=
  ⟨⟨by decide, by decide, by decide⟩,
    C2_focus_relevance.2.2 g123 "1" (by decide) (by decide) (by decide)⟩

/-! ### Claim C7 -/

/-- Claim C7: deleting the node under the context menu removes that node
and exactly the edges incident to it; every other node and edge survives
with all its fields unchanged. -/
theorem C7_delete_node (ui : UIState) (g : GraphState) (nid : String)
    (hui : ui.contextMenuNode = some nid) (hne : nid ≠ "")
    (hn : (g.edges.map GEdge.id).Nodup) :
    (deleteSelectedNode ui g).2.nodes = g.nodes.filter (fun nd => nd.id ≠ nid) ∧
    (deleteSelectedNode ui g).2.edges =
      g.edges.filter (fun e => !(e.efrom == nid || e.eto == nid)) ∧
    (∀ e ∈ g.edges, (e.efrom = nid ∨ e.eto = nid) →
      e ∉ (deleteSelectedNode ui g).2.edges) ∧
    (∀ e ∈ g.edges, e.efrom ≠ nid → e.eto ≠ nid →
      e ∈ (deleteSelectedNode ui g).2.edges) ∧
    (∀ nd ∈ g.nodes, nd.id ≠ nid → nd ∈ (deleteSelectedNode ui g).2.nodes) ∧
    (∀ nd ∈ (deleteSelectedNode ui g).2.nodes, nd.id ≠ nid) := by
  have hnodes : (deleteSelectedNode ui g).2.nodes =
      g.nodes.filter (fun nd => nd.id ≠ nid) := by
    simp only [deleteSelectedNode, hui, jsTruthy_some hne, if_true]
  have hedges : (deleteSelectedNode ui g).2.edges =
      g.edges.filter (fun e => !(e.efrom == nid || e.eto == nid)) := by
    simp only [deleteSelectedNode, hui, jsTruthy_some hne, if_true]
    exact List.filter_congr fun e he => by
      rw [contains_getConnectedEdges g.edges nid hn e he]
  refine ⟨hnodes, hedges, ?_, ?_, ?_, ?_⟩
  · intro e he hinc hcontra
    rw [hedges] at hcontra
    have := (List.mem_filter.mp hcontra).2
    rcases hinc with h1 | h1 <;> simp [h1] at this
  · intro e he h1 h2
    rw [hedges]
    exact List.mem_filter_of_mem he (by simp [h1, h2])
  · intro nd hnd h1
    rw [hnodes]
    exact List.mem_filter_of_mem hnd (by simp [h1])
  · intro nd hnd
    rw [hnodes] at hnd
    have := (List.mem_filter.mp hnd).2
    simpa using this

theorem C7_witness :
    (({ contextMenuNode := some "2" } : UIState).contextMenuNode = some "2" ∧
      "2" ≠ "" ∧ (g123.edges.map GEdge.id).Nodup) ∧
    (deleteSelectedNode { contextMenuNode := some "2" } g123).2.nodes =
      g123.nodes.filter (fun nd => nd.id ≠ "2") :=
  ⟨⟨rfl, by decide, by decide⟩,
    (C7_delete_node { contextMenuNode := some "2" } g123 "2" rfl (by decide)
      (by decide)).1⟩

/-! ### Claim C5 -/

theorem resetHighlight_clears (g : GraphState)
    (h : jsTruthy g.highlightedNode = true) :
    (resetHighlight g).highlightedNode = none ∧
    (∀ nd ∈ (resetHighlight g).nodes, nd.origColor = none) ∧
    (∀ e ∈ (resetHighlight g).edges, e.origColor = none) := by
  have hred : resetHighlight g =
      { g with
        highlightedNode := none
        nodes := g.nodes.map restoreNode
        edges := g.edges.map restoreEdge } := by
    unfold resetHighlight
    rw [h, if_pos rfl]
  refine ⟨by rw [hred], ?_, ?_⟩
  · rw [hred]
    intro nd hnd
    obtain ⟨x, _, rfl⟩ := List.mem_map.mp hnd
    exact restoreNode_origColor x
  · rw [hred]
    intro e he
    obtain ⟨x, _, rfl⟩ := List.mem_map.mp he
    exact restoreEdge_origColor x

theorem connectClickStep_snd (hitNodes : List String) (now : String)
    (ui : UIState) (g : GraphState) :
    (connectClickStep hitNodes now ui g).2.highlightedNode = g.highlightedNode ∧
    (connectClickStep hitNodes now ui g).2.nodes = g.nodes ∧
    ∀ e ∈ (connectClickStep hitNodes now ui g).2.edges,
      e ∈ g.edges ∨ e.origColor = none := by
  unfold connectClickStep
  split
  · split
    · split
      · refine ⟨rfl, rfl, ?_⟩
        intro e he
        rcases List.mem_append.mp he with h | h
        · exact Or.inl h
        · rw [List.mem_singleton.mp h]
          exact Or.inr rfl
      · exact ⟨rfl, rfl, fun e he => Or.inl he⟩
    · exact ⟨rfl, rfl, fun e he => Or.inl he⟩
  · exact ⟨rfl, rfl, fun e he => Or.inl he⟩

/-- Claim C5: at the interaction layer, a click on the node that is already
the focus resets the highlight, so the graph ends un-highlighted (no focus
marker, no dimmed element); two successive clicks on the same, not
currently focused, node likewise end un-highlighted; a click on a node that
is not the current focus re-focuses on it. -/
theorem C5_click_toggle :
    (∀ (ui : UIState) (g : GraphState) (n now : String) (rest hitE : List String),
      g.highlightedNode = some n → n ≠ "" →
      ((handleClick (n :: rest) hitE now ui g).2.highlightedNode = none ∧
        (∀ nd ∈ (handleClick (n :: rest) hitE now ui g).2.nodes,
          nd.origColor = none) ∧
        (∀ e ∈ (handleClick (n :: rest) hitE now ui g).2.edges,
          e.origColor = none))) ∧
    (∀ (ui : UIState) (g : GraphState) (n now1 now2 : String)
        (r1 r2 hE1 hE2 : List String),
      g.highlightedNode ≠ some n → n ≠ "" → colorsDefined g →
      ((handleClick (n :: r2) hE2 now2 (handleClick (n :: r1) hE1 now1 ui g).1
          (handleClick (n :: r1) hE1 now1 ui g).2).2.highlightedNode = none ∧
        (∀ nd ∈ (handleClick (n :: r2) hE2 now2
            (handleClick (n :: r1) hE1 now1 ui g).1
            (handleClick (n :: r1) hE1 now1 ui g).2).2.nodes,
          nd.origColor = none) ∧
        (∀ e ∈ (handleClick (n :: r2) hE2 now2
            (handleClick (n :: r1) hE1 now1 ui g).1
            (handleClick (n :: r1) hE1 now1 ui g).2).2.edges,
          e.origColor = none))) ∧
    (∀ (ui : UIState) (g : GraphState) (n now : String) (rest hitE : List String),
      g.highlightedNode ≠ some n →
      (handleClick (n :: rest) hitE now ui g).2.highlightedNode = some n) := by
  have key1 : ∀ (ui : UIState) (g : GraphState) (n now : String)
      (rest hitE : List String),
      g.highlightedNode = some n → n ≠ "" →
      ((handleClick (n :: rest) hitE now ui g).2.highlightedNode = none ∧
        (∀ nd ∈ (handleClick (n :: rest) hitE now ui g).2.nodes,
          nd.origColor = none) ∧
        (∀ e ∈ (handleClick (n :: rest) hitE now ui g).2.edges,
          e.origColor = none)) := by
    intro ui g n now rest hitE hfoc hn
    have hstep : highlightClickStep (n :: rest) hitE g = resetHighlight g := by
      show (if g.highlightedNode = some n then resetHighlight g
        else highlightNodeAndConnections n g) = resetHighlight g
      rw [if_pos hfoc]
    have hr := resetHighlight_clears g (by rw [hfoc]; exact jsTruthy_some hn)
    have hck : handleClick (n :: rest) hitE now ui g =
        connectClickStep (n :: rest) now
          (if ui.isMenuVisible && (n :: rest).isEmpty && hitE.isEmpty then
            { ui with isMenuVisible := false } else ui)
          (resetHighlight g) := by
      unfold handleClick
      rw [hstep]
    rw [hck]
    have hc := connectClickStep_snd (n :: rest) now
      (if ui.isMenuVisible && (n :: rest).isEmpty && hitE.isEmpty then
        { ui with isMenuVisible := false } else ui)
      (resetHighlight g)
    refine ⟨by rw [hc.1, hr.1], ?_, ?_⟩
    · intro nd hnd
      rw [hc.2.1] at hnd
      exact hr.2.1 nd hnd
    · intro e he
      rcases hc.2.2 e he with h | h
      · exact hr.2.2 e h
      · exact h
  have key3 : ∀ (ui : UIState) (g : GraphState) (n now : String)
      (rest hitE : List String),
      g.highlightedNode ≠ some n →
      (handleClick (n :: rest) hitE now ui g).2.highlightedNode = some n := by
    intro ui g n now rest hitE hfoc
    have hstep : highlightClickStep (n :: rest) hitE g =
        highlightNodeAndConnections n g := by
      show (if g.highlightedNode = some n then resetHighlight g
        else highlightNodeAndConnections n g) = highlightNodeAndConnections n g
      rw [if_neg hfoc]
    have hck : handleClick (n :: rest) hitE now ui g =
        connectClickStep (n :: rest) now
          (if ui.isMenuVisible && (n :: rest).isEmpty && hitE.isEmpty then
            { ui with isMenuVisible := false } else ui)
          (highlightNodeAndConnections n g) := by
      unfold handleClick
      rw [hstep]
    rw [hck]
    have hc := connectClickStep_snd (n :: rest) now
      (if ui.isMenuVisible && (n :: rest).isEmpty && hitE.isEmpty then
        { ui with isMenuVisible := false } else ui)
      (highlightNodeAndConnections n g)
    rw [hc.1]
    rfl
  refine ⟨key1, ?_, key3⟩
  intro ui g n now1 now2 r1 r2 hE1 hE2 hfoc hn _hdef
  exact key1 (handleClick (n :: r1) hE1 now1 ui g).1
    (handleClick (n :: r1) hE1 now1 ui g).2 n now2 r2 hE2
    (key3 ui g n now1 r1 hE1 hfoc) hn

theorem C5_witness :
    (({ g123 with highlightedNode := some "1" } : GraphState).highlightedNode =
        some "1" ∧ "1" ≠ "") ∧
    (handleClick ["1"] [] "t0" {}
      { g123 with highlightedNode := some "1" }).2.highlightedNode = none :=
  ⟨⟨rfl, by decide⟩,
    (C5_click_toggle.1 {} { g123 with highlightedNode := some "1" } "1" "t0"
      [] [] rfl (by decide)).1⟩

/-! ### Claim C9 -/

theorem dataSetGetEdge_of_mem (l : List GEdge) (e : GEdge)
    (hn : (l.map GEdge.id).Nodup) (he : e ∈ l) :
    dataSetGetEdge l e.id = some e := by
  induction l with
  | nil => cases he
  | cons a rest ih =>
      simp only [List.map_cons, List.nodup_cons] at hn
      rcases List.mem_cons.mp he with rfl | hmem
      · simp [dataSetGetEdge]
      · have hne : ¬(a.id == e.id) = true := by
          simp only [beq_iff_eq]
          intro hca
          exact hn.1 (hca ▸ List.mem_map_of_mem GEdge.id hmem)
        show List.find? (fun x => x.id == e.id) (a :: rest) = some e
        rw [show List.find? (fun x => x.id == e.id) (a :: rest) =
            List.find? (fun x => x.id == e.id) rest from
          List.find?_cons_of_neg rest hne]
        exact ih hn.2 hmem

theorem length_filter_erase_id (l : List GEdge) (eid : String)
    (hn : (l.map GEdge.id).Nodup) (he : ∃ e ∈ l, e.id = eid) :
    (l.filter (fun x => x.id ≠ eid)).length + 1 = l.length := by
  induction l with
  | nil => rcases he with ⟨e, h, _⟩; cases h
  | cons a rest ih =>
      simp only [List.map_cons, List.nodup_cons] at hn
      by_cases ha : a.id = eid
      · have hall : rest.filter (fun x => x.id ≠ eid) = rest := by
          rw [List.filter_eq_self]
          intro x hx
          simp only [ne_eq, decide_eq_true_eq]
          intro hxe
          exact hn.1 (by rw [← ha] at hxe; exact hxe ▸ List.mem_map_of_mem GEdge.id hx)
        rw [List.filter_cons_of_neg (by simp [ha]), hall]
        simp
      · rcases he with ⟨e, hmem, heid⟩
        rcases List.mem_cons.mp hmem with rfl | hmem2
        · exact absurd heid ha
        · rw [List.filter_cons_of_pos (by simp [ha])]
          have := ih hn.2 ⟨e, hmem2, heid⟩
          simp only [List.length_cons]
          omega

/-- Claim C9: reversing an edge replaces it by an edge with the same id,
`from` equal to the old `to`, `to` equal to the old `from`, and the same
label; the edge count is unchanged and every other edge is untouched. -/
theorem C9_reverse_edge (ui : UIState) (g : GraphState) (eid : String) (e : GEdge)
    (hui : ui.contextMenuEdge = some eid) (hne : eid ≠ "")
    (hn : (g.edges.map GEdge.id).Nodup) (he : e ∈ g.edges) (hid : e.id = eid) :
    (reverseEdgeDirection ui g).2.edges =
      g.edges.filter (fun x => x.id ≠ eid) ++
        [{ id := eid, efrom := e.eto, eto := e.efrom, label := e.label }] ∧
    (reverseEdgeDirection ui g).2.edges.length = g.edges.length ∧
    ({ id := eid, efrom := e.eto, eto := e.efrom, label := e.label : GEdge } ∈
      (reverseEdgeDirection ui g).2.edges) ∧
    (∀ x ∈ g.edges, x.id ≠ eid → x ∈ (reverseEdgeDirection ui g).2.edges) := by
  have hget : dataSetGetEdge g.edges eid = some e := hid ▸ dataSetGetEdge_of_mem g.edges e hn he
  have hrw : (reverseEdgeDirection ui g).2.edges =
      g.edges.filter (fun x => x.id ≠ eid) ++
        [{ id := eid, efrom := e.eto, eto := e.efrom, label := e.label }] := by
    simp only [reverseEdgeDirection, hui, jsTruthy_some hne, if_true, hget]
  refine ⟨hrw, ?_, ?_, ?_⟩
  · rw [hrw, List.length_append]
    have := length_filter_erase_id g.edges eid hn ⟨e, he, hid⟩
    simp only [List.length_singleton]
    omega
  · rw [hrw]
    exact List.mem_append_right _ (List.mem_singleton_self _)
  · intro x hx hxe
    rw [hrw]
    exact List.mem_append_left _ (List.mem_filter_of_mem hx (by simp [hxe]))

theorem C9_witness :
    (({ contextMenuEdge := some "e12" } : UIState).contextMenuEdge = some "e12" ∧
      "e12" ≠ "" ∧ (g123.edges.map GEdge.id).Nodup ∧
      ({ id := "e12", efrom := "1", eto := "2", label := some "to",
         color := some (JsVal.obj [("color", JsLeaf.str "#336699")]) : GEdge } ∈ g123.edges)) ∧
    (reverseEdgeDirection { contextMenuEdge := some "e12" } g123).2.edges.length =
      g123.edges.length :=
  ⟨⟨rfl, by decide, by decide, by decide⟩,
    (C9_reverse_edge { contextMenuEdge := some "e12" } g123 "e12"
      { id := "e12", efrom := "1", eto := "2", label := some "to",
        color := some (JsVal.obj [("color", JsLeaf.str "#336699")]) }
      rfl (by decide) (by decide) (by decide) rfl).2.1⟩


/-! ### Claim C3 -/

theorem natStrAux_eq_digits : ∀ (fuel n : ℕ), n ≤ fuel →
    natStrAux fuel n = (Nat.digits 10 n).map Nat.digitChar := by
  intro fuel
  induction fuel with
  | zero =>
      intro n hn
      obtain rfl : n = 0 := by omega
      simp [natStrAux]
  | succ f ih =>
      intro n hn
      by_cases h0 : n = 0
      · subst h0
        simp [natStrAux]
      · rw [show natStrAux (f + 1) n =
            Nat.digitChar (n % 10) :: natStrAux f (n / 10) from by
          simp [natStrAux, h0]]
        rw [Nat.digits_def' (by norm_num : (1:ℕ) < 10) (Nat.pos_of_ne_zero h0)]
        rw [List.map_cons]
        congr 1
        have hlt : n / 10 < n := Nat.div_lt_self (Nat.pos_of_ne_zero h0) (by norm_num)
        exact ih (n / 10) (by omega)

theorem digitChar_inj_lt : ∀ a < 16, ∀ b < 16,
    Nat.digitChar a = Nat.digitChar b → a = b := by decide

theorem map_digitChar_inj : ∀ (l1 l2 : List ℕ), (∀ d ∈ l1, d < 16) →
    (∀ d ∈ l2, d < 16) → l1.map Nat.digitChar = l2.map Nat.digitChar → l1 = l2 := by
  intro l1
  induction l1 with
  | nil =>
      intro l2 _ _ h
      cases l2 with
      | nil => rfl
      | cons b t2 => simp at h
  | cons a t ih =>
      intro l2 h1 h2 h
      cases l2 with
      | nil => simp at h
      | cons b t2 =>
          simp only [List.map_cons, List.cons.injEq] at h
          have ha := h1 a (List.mem_cons_self a t)
          have hb := h2 b (List.mem_cons_self b t2)
          have hab : a = b := digitChar_inj_lt a ha b hb h.1
          subst hab
          rw [ih t2 (fun d hd => h1 d (List.mem_cons_of_mem _ hd))
            (fun d hd => h2 d (List.mem_cons_of_mem _ hd)) h.2]

theorem digits_bound16 (n : ℕ) : ∀ d ∈ Nat.digits 10 n, d < 16 :=
  fun d hd => lt_trans (Nat.digits_lt_base (by norm_num) hd) (by norm_num)

theorem natStr_inj : ∀ {m n : ℕ}, natStr m = natStr n → m = n := by
  intro m n h
  unfold natStr at h
  by_cases hm : m = 0 <;> by_cases hn : n = 0
  · omega
  · exfalso
    rw [if_pos hm, if_neg hn] at h
    have hd : (["0".data.head!] : List Char) = ((natStrAux n n).reverse) := by
      have := congrArg String.data h
      simpa using this
    have hd2 : (Nat.digits 10 n).map Nat.digitChar = ['0'] := by
      have hrev := congrArg List.reverse hd
      simp only [List.reverse_reverse] at hrev
      rw [natStrAux_eq_digits n n le_rfl] at hrev
      simpa using hrev.symm
    have hz : Nat.digits 10 n = [0] := by
      apply map_digitChar_inj _ _ (digits_bound16 n) (by intro d hd3; simp at hd3; omega)
      rw [hd2]; rfl
    have := Nat.ofDigits_digits 10 n
    rw [hz] at this
    simp [Nat.ofDigits] at this
    exact hn this.symm
  · exfalso
    rw [if_neg hm, if_pos hn] at h
    have hd : ((natStrAux m m).reverse : List Char) = ["0".data.head!] := by
      have := congrArg String.data h
      simpa using this
    have hd2 : (Nat.digits 10 m).map Nat.digitChar = ['0'] := by
      have hrev := congrArg List.reverse hd
      simp only [List.reverse_reverse] at hrev
      rw [natStrAux_eq_digits m m le_rfl] at hrev
      simpa using hrev
    have hz : Nat.digits 10 m = [0] := by
      apply map_digitChar_inj _ _ (digits_bound16 m) (by intro d hd3; simp at hd3; omega)
      rw [hd2]; rfl
    have := Nat.ofDigits_digits 10 m
    rw [hz] at this
    simp [Nat.ofDigits] at this
    exact hm this.symm
  · rw [if_neg hm, if_neg hn] at h
    have hd : (natStrAux m m).reverse = (natStrAux n n).reverse :=
      congrArg String.data h
    rw [List.reverse_inj, natStrAux_eq_digits m m le_rfl,
      natStrAux_eq_digits n n le_rfl] at hd
    have hdig := map_digitChar_inj _ _ (digits_bound16 m) (digits_bound16 n) hd
    have hm' := Nat.ofDigits_digits 10 m
    have hn' := Nat.ofDigits_digits 10 n
    rw [hdig, hn'] at hm'
    exact hm'.symm

theorem candidate_inj (base : String) {j k : ℕ}
    (h : base ++ "_" ++ natStr j = base ++ "_" ++ natStr k) : j = k := by
  apply natStr_inj
  have hd := congrArg String.data h
  simp only [String.data_append] at hd
  have hcanc := (List.append_right_inj (base.data ++ "_".data)).mp hd
  exact congrArg String.mk hcanc

theorem exists_fresh_counter (seen : List String) (base : String) :
    ∃ j, j < seen.length + 1 ∧ (base ++ "_" ++ natStr (1 + j)) ∉ seen := by
  by_contra hall
  push_neg at hall
  have hinj : Function.Injective (fun j : ℕ => base ++ "_" ++ natStr (1 + j)) := by
    intro a b hab
    have := candidate_inj base hab
    omega
  have hsub : (Finset.range (seen.length + 1)).image
      (fun j => base ++ "_" ++ natStr (1 + j)) ⊆ seen.toFinset := by
    intro x hx
    obtain ⟨j, hj, rfl⟩ := Finset.mem_image.mp hx
    exact List.mem_toFinset.mpr (hall j (Finset.mem_range.mp hj))
  have hcard : seen.length + 1 ≤ seen.toFinset.card := by
    calc seen.length + 1 = (Finset.range (seen.length + 1)).card :=
          (Finset.card_range _).symm
      _ = ((Finset.range (seen.length + 1)).image
            (fun j => base ++ "_" ++ natStr (1 + j))).card :=
          (Finset.card_image_of_injective _ hinj).symm
      _ ≤ seen.toFinset.card := Finset.card_le_card hsub
  have := List.toFinset_card_le seen
  omega

theorem findCounter_spec (seen : List String) (base : String) :
    ∀ (fuel k : ℕ), (∃ j, j < fuel ∧ (base ++ "_" ++ natStr (k + j)) ∉ seen) →
    (base ++ "_" ++ natStr (findCounter seen base k fuel)) ∉ seen := by
  intro fuel
  induction fuel with
  | zero =>
      intro k h
      rcases h with ⟨j, hj, _⟩
      omega
  | succ f ih =>
      intro k h
      by_cases hc : seen.contains (base ++ "_" ++ natStr k) = true
      · rw [show findCounter seen base k (f + 1) =
            findCounter seen base (k + 1) f from by
          rw [show findCounter seen base k (f + 1) =
              if seen.contains (base ++ "_" ++ natStr k) = true then
                findCounter seen base (k + 1) f
              else k from rfl, if_pos hc]]
        apply ih (k + 1)
        rcases h with ⟨j, hj, hfree⟩
        cases j with
        | zero =>
            exfalso
            exact hfree (List.elem_iff.mp hc)
        | succ j' =>
            refine ⟨j', by omega, ?_⟩
            rw [show k + 1 + j' = k + (j' + 1) from by omega]
            exact hfree
      · rw [show findCounter seen base k (f + 1) = k from by
          rw [show findCounter seen base k (f + 1) =
              if seen.contains (base ++ "_" ++ natStr k) = true then
                findCounter seen base (k + 1) f
              else k from rfl, if_neg hc]]
        exact fun hmem => hc (List.elem_iff.mpr hmem)

theorem findCounter_ge (seen : List String) (base : String) :
    ∀ (fuel k : ℕ), k ≤ findCounter seen base k fuel := by
  intro fuel
  induction fuel with
  | zero => intro k; exact le_rfl
  | succ f ih =>
      intro k
      by_cases hc : seen.contains (base ++ "_" ++ natStr k) = true
      · rw [show findCounter seen base k (f + 1) =
            findCounter seen base (k + 1) f from by
          rw [show findCounter seen base k (f + 1) =
              if seen.contains (base ++ "_" ++ natStr k) = true then
                findCounter seen base (k + 1) f
              else k from rfl, if_pos hc]]
        exact le_trans (by omega) (ih (k + 1))
      · rw [show findCounter seen base k (f + 1) = k from by
          rw [show findCounter seen base k (f + 1) =
              if seen.contains (base ++ "_" ++ natStr k) = true then
                findCounter seen base (k + 1) f
              else k from rfl, if_neg hc]]

theorem assignId_fresh (seen : List String) (base : String) :
    assignId seen base ∉ seen := by
  unfold assignId
  by_cases hc : seen.contains base = true
  · rw [if_pos hc]
    apply findCounter_spec
    obtain ⟨j, hj, hfree⟩ := exists_fresh_counter seen base
    exact ⟨j, by omega, hfree⟩
  · rw [if_neg hc]
    exact fun hmem => hc (List.elem_iff.mpr hmem)

theorem assignId_keep (seen : List String) (base : String) (h : base ∉ seen) :
    assignId seen base = base := by
  unfold assignId
  rw [if_neg (fun hc => h (List.elem_iff.mp hc))]

theorem assignId_suffix (seen : List String) (base : String) (h : base ∈ seen) :
    ∃ k, 1 ≤ k ∧ assignId seen base = base ++ "_" ++ natStr k := by
  unfold assignId
  rw [if_pos (List.elem_iff.mpr h)]
  exact ⟨findCounter seen base 1 (seen.length + 1),
    findCounter_ge seen base (seen.length + 1) 1, rfl⟩

theorem ensureUniqueIdsNodes_spec : ∀ (l : List GNode) (seen : List String),
    ((ensureUniqueIdsNodes l seen).map GNode.id).Nodup ∧
    (∀ s ∈ (ensureUniqueIdsNodes l seen).map GNode.id, s ∉ seen) := by
  intro l
  induction l with
  | nil => intro seen; simp [ensureUniqueIdsNodes]
  | cons nd rest ih =>
      intro seen
      obtain ⟨ihn, ihs⟩ := ih (assignId seen nd.id :: seen)
      simp only [ensureUniqueIdsNodes, List.map_cons, List.nodup_cons]
      refine ⟨⟨?_, ihn⟩, ?_⟩
      · intro hmem
        exact (ihs _ hmem) (List.mem_cons_self _ _)
      · intro s hs
        rcases List.mem_cons.mp hs with rfl | hmem
        · exact assignId_fresh seen nd.id
        · exact fun hseen => (ihs s hmem) (List.mem_cons_of_mem _ hseen)

theorem ensureUniqueIdsEdges_spec : ∀ (l : List RawEdge) (seen : List String),
    ((ensureUniqueIdsEdges l seen).map RawEdge.id).Nodup ∧
    (∀ s ∈ (ensureUniqueIdsEdges l seen).map RawEdge.id,
      ∀ t ∈ seen, s ≠ some t) := by
  intro l
  induction l with
  | nil => intro seen; simp [ensureUniqueIdsEdges]
  | cons e rest ih =>
      intro seen
      obtain ⟨ihn, ihs⟩ := ih (assignId seen (edgeBase e) :: seen)
      simp only [ensureUniqueIdsEdges, List.map_cons, List.nodup_cons]
      refine ⟨⟨?_, ihn⟩, ?_⟩
      · intro hmem
        exact ihs _ hmem _ (List.mem_cons_self _ _) rfl
      · intro s hs
        rcases List.mem_cons.mp hs with rfl | hmem
        · intro t ht heq
          rw [Option.some.injEq] at heq
          exact assignId_fresh seen (edgeBase e) (heq ▸ ht)
        · exact fun t ht => ihs s hmem t (List.mem_cons_of_mem _ ht)

theorem ensureUniqueIdsNodes_length : ∀ (l : List GNode) (seen : List String),
    (ensureUniqueIdsNodes l seen).length = l.length := by
  intro l
  induction l with
  | nil => intro seen; rfl
  | cons nd rest ih => intro seen; simp [ensureUniqueIdsNodes, ih]

theorem ensureUniqueIdsEdges_length : ∀ (l : List RawEdge) (seen : List String),
    (ensureUniqueIdsEdges l seen).length = l.length := by
  intro l
  induction l with
  | nil => intro seen; rfl
  | cons e rest ih => intro seen; simp [ensureUniqueIdsEdges, ih]

theorem ensureUniqueIdsNodes_append : ∀ (l1 l2 : List GNode) (seen : List String),
    ensureUniqueIdsNodes (l1 ++ l2) seen =
      ensureUniqueIdsNodes l1 seen ++
        ensureUniqueIdsNodes l2 (seenAfterNodes l1 seen) := by
  intro l1
  induction l1 with
  | nil => intro l2 seen; rfl
  | cons nd rest ih =>
      intro l2 seen
      have h1 : ensureUniqueIdsNodes ((nd :: rest) ++ l2) seen =
          { nd with id := assignId seen nd.id } ::
            ensureUniqueIdsNodes (rest ++ l2) (assignId seen nd.id :: seen) := rfl
      have h2 : ensureUniqueIdsNodes (nd :: rest) seen ++
            ensureUniqueIdsNodes l2 (seenAfterNodes (nd :: rest) seen) =
          { nd with id := assignId seen nd.id } ::
            (ensureUniqueIdsNodes rest (assignId seen nd.id :: seen) ++
              ensureUniqueIdsNodes l2
                (seenAfterNodes rest (assignId seen nd.id :: seen))) := rfl
      rw [h1, h2, ih l2 (assignId seen nd.id :: seen)]

theorem ensureUniqueIdsEdges_append : ∀ (l1 l2 : List RawEdge) (seen : List String),
    ensureUniqueIdsEdges (l1 ++ l2) seen =
      ensureUniqueIdsEdges l1 seen ++
        ensureUniqueIdsEdges l2 (seenAfterEdges l1 seen) := by
  intro l1
  induction l1 with
  | nil => intro l2 seen; rfl
  | cons e rest ih =>
      intro l2 seen
      have h1 : ensureUniqueIdsEdges ((e :: rest) ++ l2) seen =
          { e with id := some (assignId seen (edgeBase e)) } ::
            ensureUniqueIdsEdges (rest ++ l2)
              (assignId seen (edgeBase e) :: seen) := rfl
      have h2 : ensureUniqueIdsEdges (e :: rest) seen ++
            ensureUniqueIdsEdges l2 (seenAfterEdges (e :: rest) seen) =
          { e with id := some (assignId seen (edgeBase e)) } ::
            (ensureUniqueIdsEdges rest (assignId seen (edgeBase e) :: seen) ++
              ensureUniqueIdsEdges l2
                (seenAfterEdges rest (assignId seen (edgeBase e) :: seen))) := rfl
      rw [h1, h2, ih l2 (assignId seen (edgeBase e) :: seen)]

/-- Claim C3 (amended): `ensureUniqueIds` returns collections whose node
ids and edge ids are each pairwise distinct, preserving element counts; it
is one deterministic forward pass that never rewrites the id already
assigned to an earlier element (processing an extended input appends to the
unchanged output of the shorter prefix); an element whose (defaulted) id
has not yet been assigned to any earlier output element keeps it verbatim;
a colliding occurrence gets an incrementing numeric `_k` suffix (k ≥ 1);
and an absent edge id defaults to `edge_{from}_{to}` before
de-duplication. -/
theorem C3_ensure_unique_ids :
    (∀ (nodes : List GNode),
      ((ensureUniqueIdsNodes nodes []).map GNode.id).Nodup) ∧
    (∀ (edges : List RawEdge),
      ((ensureUniqueIdsEdges edges []).map RawEdge.id).Nodup) ∧
    (∀ (nodes : List GNode) (seen : List String),
      (ensureUniqueIdsNodes nodes seen).length = nodes.length) ∧
    (∀ (edges : List RawEdge) (seen : List String),
      (ensureUniqueIdsEdges edges seen).length = edges.length) ∧
    (∀ (l1 l2 : List GNode) (seen : List String),
      ensureUniqueIdsNodes (l1 ++ l2) seen =
        ensureUniqueIdsNodes l1 seen ++
          ensureUniqueIdsNodes l2 (seenAfterNodes l1 seen)) ∧
    (∀ (l1 l2 : List RawEdge) (seen : List String),
      ensureUniqueIdsEdges (l1 ++ l2) seen =
        ensureUniqueIdsEdges l1 seen ++
          ensureUniqueIdsEdges l2 (seenAfterEdges l1 seen)) ∧
    (∀ (nd : GNode) (rest : List GNode) (seen : List String), nd.id ∉ seen →
      ensureUniqueIdsNodes (nd :: rest) seen =
        nd :: ensureUniqueIdsNodes rest (nd.id :: seen)) ∧
    (∀ (seen : List String) (base : String), base ∈ seen →
      ∃ k, 1 ≤ k ∧ assignId seen base = base ++ "_" ++ natStr k) ∧
    (∀ (e : RawEdge), e.id = none →
      edgeBase e = "edge_" ++ e.efrom ++ "_" ++ e.eto) := by
  refine ⟨fun nodes => (ensureUniqueIdsNodes_spec nodes []).1,
    fun edges => (ensureUniqueIdsEdges_spec edges []).1,
    ensureUniqueIdsNodes_length, ensureUniqueIdsEdges_length,
    ensureUniqueIdsNodes_append, ensureUniqueIdsEdges_append, ?_,
    assignId_suffix, ?_⟩
  · intro nd rest seen h
    have h1 : ensureUniqueIdsNodes (nd :: rest) seen =
        { nd with id := assignId seen nd.id } ::
          ensureUniqueIdsNodes rest (assignId seen nd.id :: seen) := rfl
    rw [h1, assignId_keep seen nd.id h]
  · intro e h
    unfold edgeBase
    rw [h]

/-- Claim C3, as stated, is false on its "the first occurrence of any id
keeps its original id unchanged" clause: in the input with node ids
`["a", "a", "a_1"]`, the second "a" is renamed to "a_1", and the third
element — the first occurrence of "a_1" in the input — then collides with
that renamed element and comes out as "a_1_1". -/
theorem C3_counterexample :
    (ensureUniqueIdsNodes
        [{ id := "a" }, { id := "a" }, { id := "a_1" }] []).map GNode.id =
      ["a", "a_1", "a_1_1"] ∧
    (([{ id := "a" }, { id := "a" }, { id := "a_1" }] : List GNode).map
      GNode.id) = ["a", "a", "a_1"] ∧
    ("a" : String) ≠ "a_1" ∧ ("a_1_1" : String) ≠ "a_1" := by decide

theorem C3_witness :
    (({ id := "x" } : GNode).id ∉ ([] : List String) ∧
      ensureUniqueIdsNodes [{ id := "x" }, { id := "y" }] [] =
        ({ id := "x" } : GNode) ::
          ensureUniqueIdsNodes [{ id := "y" }] [({ id := "x" } : GNode).id]) ∧
    (("a" : String) ∈ (["a"] : List String) ∧
      ∃ k, 1 ≤ k ∧ assignId ["a"] "a" = "a" ++ "_" ++ natStr k) ∧
    (({ id := none, efrom := "1", eto := "2" } : RawEdge).id = none ∧
      edgeBase { id := none, efrom := "1", eto := "2" } =
        "edge_" ++ ({ id := none, efrom := "1", eto := "2" } : RawEdge).efrom ++
          "_" ++ ({ id := none, efrom := "1", eto := "2" } : RawEdge).eto) :=
  ⟨⟨by decide,
      C3_ensure_unique_ids.2.2.2.2.2.2.1 { id := "x" } [{ id := "y" }] []
        (by decide)⟩,
    ⟨by decide, C3_ensure_unique_ids.2.2.2.2.2.2.2.1 ["a"] "a" (by decide)⟩,
    ⟨rfl, C3_ensure_unique_ids.2.2.2.2.2.2.2.2
      { id := none, efrom := "1", eto := "2" } rfl⟩⟩

/-! ### Claim C4 -/

theorem core_bounds (p q u : ℚ) (hp0 : 0 ≤ p) (hp1 : p ≤ 1) (hq0 : 0 ≤ q)
    (hq1 : q ≤ 1) (hu0 : 0 ≤ u) (hu1 : u ≤ 1) :
    0 ≤ (if u < 1 / 6 then p + (q - p) * 6 * u
      else if u < 1 / 2 then q
      else if u < 2 / 3 then p + (q - p) * (2 / 3 - u) * 6
      else p) ∧
    (if u < 1 / 6 then p + (q - p) * 6 * u
      else if u < 1 / 2 then q
      else if u < 2 / 3 then p + (q - p) * (2 / 3 - u) * 6
      else p) ≤ 1 := by
  split_ifs with h1 h2 h3
  · constructor
    · nlinarith [mul_nonneg hp0 (by linarith : (0:ℚ) ≤ 1 - 6 * u),
        mul_nonneg hq0 (by linarith : (0:ℚ) ≤ 6 * u)]
    · nlinarith [mul_nonneg (by linarith : (0:ℚ) ≤ 1 - p)
          (by linarith : (0:ℚ) ≤ 1 - 6 * u),
        mul_nonneg (by linarith : (0:ℚ) ≤ 1 - q) (by linarith : (0:ℚ) ≤ 6 * u)]
  · exact ⟨hq0, hq1⟩
  · constructor
    · nlinarith [mul_nonneg hp0 (by linarith : (0:ℚ) ≤ 1 - (2 / 3 - u) * 6),
        mul_nonneg hq0 (by linarith : (0:ℚ) ≤ (2 / 3 - u) * 6)]
    · nlinarith [mul_nonneg (by linarith : (0:ℚ) ≤ 1 - p)
          (by linarith : (0:ℚ) ≤ 1 - (2 / 3 - u) * 6),
        mul_nonneg (by linarith : (0:ℚ) ≤ 1 - q)
          (by linarith : (0:ℚ) ≤ (2 / 3 - u) * 6)]
  · exact ⟨hp0, hp1⟩

theorem hue2rgb_bounds (p q t : ℚ) (hp0 : 0 ≤ p) (hp1 : p ≤ 1) (hq0 : 0 ≤ q)
    (hq1 : q ≤ 1) (htl : -1 ≤ t) (htu : t ≤ 2) :
    0 ≤ hue2rgb p q t ∧ hue2rgb p q t ≤ 1 := by
  have habs : ∃ u, 0 ≤ u ∧ u ≤ 1 ∧ hue2rgb p q t =
      (if u < 1 / 6 then p + (q - p) * 6 * u
        else if u < 1 / 2 then q
        else if u < 2 / 3 then p + (q - p) * (2 / 3 - u) * 6
        else p) := by
    refine ⟨(if ((if t < 0 then t + 1 else t) : ℚ) > 1 then
        (if t < 0 then t + 1 else t) - 1 else (if t < 0 then t + 1 else t)),
      ?_, ?_, rfl⟩
    · split_ifs <;> linarith
    · split_ifs <;> linarith
  obtain ⟨u, hu0, hu1, heq⟩ := habs
  rw [heq]
  exact core_bounds p q u hp0 hp1 hq0 hq1 hu0 hu1

theorem hslHS_bounds (rf gf bf : ℚ) (hr0 : 0 ≤ rf) (hr1 : rf ≤ 1)
    (hg0 : 0 ≤ gf) (hg1 : gf ≤ 1) (hb0 : 0 ≤ bf) (hb1 : bf ≤ 1) :
    0 ≤ (hslHS rf gf bf).1 ∧ (hslHS rf gf bf).1 ≤ 1 ∧
    0 ≤ (hslHS rf gf bf).2 ∧ (hslHS rf gf bf).2 ≤ 1 := by
  have hrmx : rf ≤ max rf (max gf bf) := le_max_left _ _
  have hgmx : gf ≤ max rf (max gf bf) :=
    le_trans (le_max_left gf bf) (le_max_right _ _)
  have hbmx : bf ≤ max rf (max gf bf) :=
    le_trans (le_max_right gf bf) (le_max_right _ _)
  have hmnr : min rf (min gf bf) ≤ rf := min_le_left _ _
  have hmng : min rf (min gf bf) ≤ gf :=
    le_trans (min_le_right _ _) (min_le_left gf bf)
  have hmnb : min rf (min gf bf) ≤ bf :=
    le_trans (min_le_right _ _) (min_le_right gf bf)
  have hmx1 : max rf (max gf bf) ≤ 1 := max_le hr1 (max_le hg1 hb1)
  have hmn0 : 0 ≤ min rf (min gf bf) := le_min hr0 (le_min hg0 hb0)
  unfold hslHS
  by_cases hc : max rf (max gf bf) = min rf (min gf bf)
  · rw [if_pos hc]
    norm_num
  · rw [if_neg hc]
    have hlt : min rf (min gf bf) < max rf (max gf bf) :=
      lt_of_le_of_ne (le_trans hmnr hrmx) (Ne.symm hc)
    have hd : 0 < max rf (max gf bf) - min rf (min gf bf) := by linarith
    have hdiv : ∀ a b : ℚ, min rf (min gf bf) ≤ a → a ≤ max rf (max gf bf) →
        min rf (min gf bf) ≤ b → b ≤ max rf (max gf bf) →
        -1 ≤ (a - b) / (max rf (max gf bf) - min rf (min gf bf)) ∧
          (a - b) / (max rf (max gf bf) - min rf (min gf bf)) ≤ 1 := by
      intro a b ha1 ha2 hb1' hb2'
      constructor
      · rw [le_div_iff hd]
        linarith
      · rw [div_le_one hd]
        linarith
    have hh : 0 ≤ (if max rf (max gf bf) = rf then
          (gf - bf) / (max rf (max gf bf) - min rf (min gf bf)) +
            (if gf < bf then 6 else 0)
        else if max rf (max gf bf) = gf then
          (bf - rf) / (max rf (max gf bf) - min rf (min gf bf)) + 2
        else (rf - gf) / (max rf (max gf bf) - min rf (min gf bf)) + 4) ∧
        (if max rf (max gf bf) = rf then
          (gf - bf) / (max rf (max gf bf) - min rf (min gf bf)) +
            (if gf < bf then 6 else 0)
        else if max rf (max gf bf) = gf then
          (bf - rf) / (max rf (max gf bf) - min rf (min gf bf)) + 2
        else (rf - gf) / (max rf (max gf bf) - min rf (min gf bf)) + 4) ≤ 6 := by
      split_ifs with e1 e2 e3
      · obtain ⟨hL, hU⟩ := hdiv gf bf hmng hgmx hmnb hbmx
        have hneg : (gf - bf) / (max rf (max gf bf) - min rf (min gf bf)) ≤ 0 := by
          rw [div_le_iff hd]
          nlinarith
        constructor <;> linarith
      · obtain ⟨hL, hU⟩ := hdiv gf bf hmng hgmx hmnb hbmx
        have hpos : 0 ≤ (gf - bf) / (max rf (max gf bf) - min rf (min gf bf)) :=
          div_nonneg (by linarith [not_lt.mp e2]) (le_of_lt hd)
        constructor <;> linarith
      · obtain ⟨hL, hU⟩ := hdiv bf rf hmnb hbmx hmnr hrmx
        constructor <;> linarith
      · obtain ⟨hL, hU⟩ := hdiv rf gf hmnr hrmx hmng hgmx
        constructor <;> linarith
    have hs : 0 ≤ (if (max rf (max gf bf) + min rf (min gf bf)) / 2 > 1 / 2 then
          (max rf (max gf bf) - min rf (min gf bf)) /
            (2 - max rf (max gf bf) - min rf (min gf bf))
        else
          (max rf (max gf bf) - min rf (min gf bf)) /
            (max rf (max gf bf) + min rf (min gf bf))) ∧
        (if (max rf (max gf bf) + min rf (min gf bf)) / 2 > 1 / 2 then
          (max rf (max gf bf) - min rf (min gf bf)) /
            (2 - max rf (max gf bf) - min rf (min gf bf))
        else
          (max rf (max gf bf) - min rf (min gf bf)) /
            (max rf (max gf bf) + min rf (min gf bf))) ≤ 1 := by
      split_ifs with e1
      · have hden : 0 < 2 - max rf (max gf bf) - min rf (min gf bf) := by
          nlinarith
        constructor
        · exact div_nonneg (by linarith) (le_of_lt hden)
        · rw [div_le_one hden]
          linarith
      · have hden : 0 < max rf (max gf bf) + min rf (min gf bf) := by
          nlinarith
        constructor
        · exact div_nonneg (by linarith) (le_of_lt hden)
        · rw [div_le_one hden]
          linarith
    refine ⟨by linarith [hh.1], by linarith [hh.2], hs.1, hs.2⟩

theorem hslOf_bounds (rf gf bf : ℚ) (hr0 : 0 ≤ rf) (hr1 : rf ≤ 1)
    (hg0 : 0 ≤ gf) (hg1 : gf ≤ 1) (hb0 : 0 ≤ bf) (hb1 : bf ≤ 1) :
    (0 ≤ (hslOf rf gf bf).1 ∧ (hslOf rf gf bf).1 ≤ 1) ∧
    (0 ≤ (hslOf rf gf bf).2.1 ∧ (hslOf rf gf bf).2.1 ≤ 1) ∧
    (0 ≤ (hslOf rf gf bf).2.2 ∧ (hslOf rf gf bf).2.2 ≤ 1) := by
  obtain ⟨h1, h2, h3, h4⟩ := hslHS_bounds rf gf bf hr0 hr1 hg0 hg1 hb0 hb1
  have hmx1 : max rf (max gf bf) ≤ 1 := max_le hr1 (max_le hg1 hb1)
  have hmn0 : 0 ≤ min rf (min gf bf) := le_min hr0 (le_min hg0 hb0)
  have hmnmx : min rf (min gf bf) ≤ max rf (max gf bf) :=
    le_trans (min_le_left _ _) (le_max_left _ _)
  unfold hslOf
  refine ⟨⟨h1, h2⟩, ⟨by linarith, by linarith⟩, ⟨by linarith, by linarith⟩⟩

theorem rgb1Of_bounds (h s l : ℚ) (hh0 : 0 ≤ h) (hh1 : h ≤ 1) (hs0 : 0 ≤ s)
    (hs1 : s ≤ 1) (hl0 : 0 ≤ l) (hl1 : l ≤ 1) :
    (0 ≤ (rgb1Of h s l).1 ∧ (rgb1Of h s l).1 ≤ 1) ∧
    (0 ≤ (rgb1Of h s l).2.1 ∧ (rgb1Of h s l).2.1 ≤ 1) ∧
    (0 ≤ (rgb1Of h s l).2.2 ∧ (rgb1Of h s l).2.2 ≤ 1) := by
  unfold rgb1Of
  by_cases hz : s = 0
  · rw [if_pos hz]
    exact ⟨⟨hl0, hl1⟩, ⟨hl0, hl1⟩, ⟨hl0, hl1⟩⟩
  · rw [if_neg hz]
    have hq : 0 ≤ qOf s l ∧ qOf s l ≤ 1 := by
      unfold qOf
      split_ifs with hl
      · constructor
        · nlinarith [mul_nonneg hl0 (by linarith : (0:ℚ) ≤ 1 + s)]
        · nlinarith [mul_nonneg (by linarith : (0:ℚ) ≤ 1 / 2 - l)
            (by linarith : (0:ℚ) ≤ 1 + s)]
      · constructor
        · nlinarith [mul_nonneg hs0 (by linarith : (0:ℚ) ≤ 1 - l)]
        · nlinarith [mul_nonneg (by linarith : (0:ℚ) ≤ 1 - l)
            (by linarith : (0:ℚ) ≤ 1 - s)]
    have hp : 0 ≤ 2 * l - qOf s l ∧ 2 * l - qOf s l ≤ 1 := by
      unfold qOf
      split_ifs with hl
      · constructor
        · nlinarith [mul_nonneg hl0 (by linarith : (0:ℚ) ≤ 1 - s)]
        · nlinarith [mul_nonneg hl0 hs0]
      · constructor
        · nlinarith [mul_nonneg (by linarith : (0:ℚ) ≤ 1 - s)
            (by linarith : (0:ℚ) ≤ 1 - l)]
        · nlinarith [mul_nonneg hs0 (by linarith : (0:ℚ) ≤ 1 - l)]
    exact ⟨hue2rgb_bounds _ _ _ hp.1 hp.2 hq.1 hq.2 (by linarith) (by linarith),
      hue2rgb_bounds _ _ _ hp.1 hp.2 hq.1 hq.2 (by linarith) (by linarith),
      hue2rgb_bounds _ _ _ hp.1 hp.2 hq.1 hq.2 (by linarith) (by linarith)⟩

theorem natHexAux_eq_digits16 : ∀ (fuel n : ℕ), n ≤ fuel →
    natHexAux fuel n = (Nat.digits 16 n).map Nat.digitChar := by
  intro fuel
  induction fuel with
  | zero =>
      intro n hn
      obtain rfl : n = 0 := by omega
      simp [natHexAux]
  | succ f ih =>
      intro n hn
      by_cases h0 : n = 0
      · subst h0
        simp [natHexAux]
      · rw [show natHexAux (f + 1) n =
            Nat.digitChar (n % 16) :: natHexAux f (n / 16) from by
          simp [natHexAux, h0]]
        rw [Nat.digits_def' (by norm_num : (1:ℕ) < 16) (Nat.pos_of_ne_zero h0)]
        rw [List.map_cons]
        congr 1
        have hlt : n / 16 < n := Nat.div_lt_self (Nat.pos_of_ne_zero h0) (by norm_num)
        exact ih (n / 16) (by omega)

theorem hexDigitChar_lt : ∀ d < 16, isHexDigitChar (Nat.digitChar d) = true := by
  decide

theorem padStart_natHex (n : ℕ) (hn : n ≤ 255) :
    (padStart2 (natHexStr n)).data.length = 2 ∧
    ∀ c ∈ (padStart2 (natHexStr n)).data, isHexDigitChar c = true := by
  by_cases h0 : n = 0
  · subst h0
    exact ⟨by decide, by decide⟩
  · have hdata : (natHexStr n).data = ((Nat.digits 16 n).map Nat.digitChar).reverse := by
      unfold natHexStr
      rw [if_neg h0, natHexAux_eq_digits16 n n le_rfl]
    have hlen : (natHexStr n).length = (Nat.digits 16 n).length := by
      show (natHexStr n).data.length = _
      rw [hdata]
      simp
    have hdl : (Nat.digits 16 n).length = 1 ∨ (Nat.digits 16 n).length = 2 := by
      have h1 : 1 ≤ (Nat.digits 16 n).length :=
        List.length_pos.mpr (Nat.digits_ne_nil_iff_ne_zero.mpr h0)
      have h2 : Nat.log 16 n < 2 := Nat.log_lt_of_lt_pow h0 (by omega)
      have h3 := Nat.digits_len 16 n (by norm_num) h0
      omega
    have hhex : ∀ c ∈ (natHexStr n).data, isHexDigitChar c = true := by
      rw [hdata]
      intro c hc
      rw [List.mem_reverse] at hc
      obtain ⟨d, hd, rfl⟩ := List.mem_map.mp hc
      exact hexDigitChar_lt d (Nat.digits_lt_base (by norm_num) hd)
    unfold padStart2
    rcases hdl with h | h
    · have hl : (natHexStr n).length = 1 := by rw [hlen, h]
      rw [if_neg (by rw [hl]; norm_num), if_pos hl]
      constructor
      · show ("0" ++ natHexStr n).data.length = 2
        rw [String.data_append, List.length_append]
        have hdl1 : (natHexStr n).data.length = 1 := hl
        simp [hdl1]
      · intro c hc
        rw [String.data_append] at hc
        rcases List.mem_append.mp hc with h' | h'
        · have : c = '0' := by simpa using h'
          subst this
          decide
        · exact hhex c h'
    · have hl : (natHexStr n).length = 2 := by rw [hlen, h]
      rw [if_neg (by rw [hl]; norm_num), if_neg (by rw [hl]; norm_num)]
      exact ⟨hl, hhex⟩

theorem channelHex_spec (x : ℚ) (h0 : 0 ≤ x) (h1 : x ≤ 1) :
    (channelHex x).data.length = 2 ∧
    ∀ c ∈ (channelHex x).data, isHexDigitChar c = true := by
  have hz0 : 0 ≤ jsRound (x * 255) := by
    unfold jsRound
    exact Int.le_floor.mpr (by push_cast; linarith)
  have hz255 : jsRound (x * 255) ≤ 255 := by
    have hlt : jsRound (x * 255) < 256 := by
      unfold jsRound
      exact Int.floor_lt.mpr (by push_cast; linarith)
    omega
  have htn : (jsRound (x * 255)).toNat ≤ 255 := by omega
  unfold channelHex jsIntToHexStr
  rw [if_neg (by omega : ¬ jsRound (x * 255) < 0)]
  exact padStart_natHex _ htn

theorem valid_of_three (A B C : String)
    (hA2 : A.data.length = 2) (hAh : ∀ c ∈ A.data, isHexDigitChar c = true)
    (hB2 : B.data.length = 2) (hBh : ∀ c ∈ B.data, isHexDigitChar c = true)
    (hC2 : C.data.length = 2) (hCh : ∀ c ∈ C.data, isHexDigitChar c = true) :
    isValidHexColor ("#" ++ A ++ B ++ C) = true := by
  have hd : ("#" ++ A ++ B ++ C).data = '#' :: (A.data ++ (B.data ++ C.data)) := by
    simp [String.data_append]
  have hred : isValidHexColor ("#" ++ A ++ B ++ C) =
      ((A.data ++ (B.data ++ C.data)).length == 6 &&
        (A.data ++ (B.data ++ C.data)).all isHexDigitChar) := by
    unfold isValidHexColor
    rw [hd]
    rfl
  rw [hred, Bool.and_eq_true]
  constructor
  · simp [List.length_append, hA2, hB2, hC2]
  · rw [List.all_eq_true]
    intro c hc
    rcases List.mem_append.mp hc with h' | h'
    · exact hAh c h'
    · rcases List.mem_append.mp h' with h'' | h''
      · exact hBh c h''
      · exact hCh c h''

theorem computeColorHex_valid (text : String) :
    isValidHexColor (computeColorHex text) = true := by
  have comp : ∀ k : ℕ, (0:ℚ) ≤ ((k % 256 : ℕ) : ℚ) / 255 ∧
      ((k % 256 : ℕ) : ℚ) / 255 ≤ 1 := by
    intro k
    have h255 : (k % 256) ≤ 255 := by
      have := Nat.mod_lt k (show 0 < 256 by norm_num)
      omega
    constructor
    · positivity
    · rw [div_le_one (by norm_num : (0:ℚ) < 255)]
      exact_mod_cast h255
  obtain ⟨hr0, hr1⟩ := comp (simpleHash text / 65536)
  obtain ⟨hg0, hg1⟩ := comp (simpleHash text / 256)
  obtain ⟨hb0, hb1⟩ := comp (simpleHash text)
  obtain ⟨⟨hH0, hH1⟩, ⟨hS0, hS1⟩, ⟨hL0, hL1⟩⟩ :=
    hslOf_bounds (((simpleHash text / 65536 % 256 : ℕ) : ℚ) / 255)
      (((simpleHash text / 256 % 256 : ℕ) : ℚ) / 255)
      (((simpleHash text % 256 : ℕ) : ℚ) / 255)
      hr0 hr1 hg0 hg1 hb0 hb1
  obtain ⟨⟨hx0, hx1⟩, ⟨hy0, hy1⟩, ⟨hz0, hz1⟩⟩ :=
    rgb1Of_bounds _ _ _ hH0 hH1 hS0 hS1 hL0 hL1
  obtain ⟨hA2, hAh⟩ := channelHex_spec _ hx0 hx1
  obtain ⟨hB2, hBh⟩ := channelHex_spec _ hy0 hy1
  obtain ⟨hC2, hCh⟩ := channelHex_spec _ hz0 hz1
  exact valid_of_three _ _ _ hA2 hAh hB2 hBh hC2 hCh

theorem valid_ne_empty {s : String} (h : isValidHexColor s = true) : s ≠ "" := by
  intro heq
  rw [heq] at h
  exact absurd h (by decide)

/-- Claim C4 states the code's evident intent, but the program violates
it: `if (_colorCache[text])` reads the plain cache object through its
prototype chain, so the very first call with an `Object.prototype`
property name — "toString" here — hits the inherited function, which is
truthy and is returned as the "color": not a string at all, and nothing is
cached. Away from those inherited names the intended behavior does hold:
with any cache satisfying the memo invariant, the returned value is the
pure hash-derived color of the argument (hence identical on every call,
including on the updated cache), the invariant is preserved, and the
result is a valid 6-digit `#rrggbb` color string. -/
theorem C4_color_assigner :
    generateColorFromString [] "toString" = (JsPropVal.builtin "toString", []) ∧
    (∀ s, JsPropVal.builtin "toString" ≠ JsPropVal.str s) ∧
    (∀ (cache : List (String × String)) (s : String), CacheInv cache →
      objectPrototypeMembers.contains s = false →
      (generateColorFromString cache s).1 = JsPropVal.str (computeColorHex s) ∧
      isValidHexColor (computeColorHex s) = true ∧
      CacheInv (generateColorFromString cache s).2 ∧
      (generateColorFromString (generateColorFromString cache s).2 s).1 =
        (generateColorFromString cache s).1) := by
  refine ⟨by decide, fun s h => JsPropVal.noConfusion h, ?_⟩
  intro cache s hinv hproto
  have hval := computeColorHex_valid s
  have hne : computeColorHex s ≠ "" := valid_ne_empty hval
  cases hfind : (cache.find? (fun kv => kv.1 == s)).map (·.2) with
  | none =>
      have hcr : cacheRead cache s = none := by
        unfold cacheRead
        rw [hfind, hproto]
        rfl
      have h1 : generateColorFromString cache s =
          (JsPropVal.str (computeColorHex s), (s, computeColorHex s) :: cache) := by
        unfold generateColorFromString
        rw [hcr]
      have h2 : generateColorFromString ((s, computeColorHex s) :: cache) s =
          (JsPropVal.str (computeColorHex s), (s, computeColorHex s) :: cache) := by
        unfold generateColorFromString
        have hf2 : cacheRead ((s, computeColorHex s) :: cache) s =
            some (JsPropVal.str (computeColorHex s)) := by
          unfold cacheRead
          rw [List.find?_cons_of_pos _ (by simp)]
          rfl
        rw [hf2]
        exact if_pos (decide_eq_true hne)
      refine ⟨by rw [h1], hval, ?_, by rw [h1, h2]⟩
      rw [h1]
      intro kv hkv
      rcases List.mem_cons.mp hkv with rfl | hm
      · rfl
      · exact hinv kv hm
  | some c =>
      have hc : c = computeColorHex s := by
        obtain ⟨kv, hfind2, hmap⟩ := Option.map_eq_some'.mp hfind
        have hkv1 : kv.1 = s := by
          have := List.find?_some hfind2
          simpa using this
        have hkvmem : kv ∈ cache := List.mem_of_find?_eq_some hfind2
        have hkv2 := hinv kv hkvmem
        rw [← hmap, hkv2, hkv1]
      have hcne : c ≠ "" := by rw [hc]; exact hne
      have hcr : cacheRead cache s = some (JsPropVal.str c) := by
        unfold cacheRead
        rw [hfind]
      have h1 : generateColorFromString cache s = (JsPropVal.str c, cache) := by
        unfold generateColorFromString
        rw [hcr]
        exact if_pos (decide_eq_true hcne)
      refine ⟨by rw [h1, hc], hval, by rw [h1]; exact hinv, by rw [h1, h1]⟩

theorem C4_witness :
    (CacheInv [] ∧ objectPrototypeMembers.contains "角色" = false) ∧
    (generateColorFromString [] "角色").1 = JsPropVal.str (computeColorHex "角色") :=
  ⟨⟨by decide, by decide⟩,
    (C4_color_assigner.2.2 [] "角色" (by decide) (by decide)).1⟩
